import Mathlib

set_option maxHeartbeats 1000000

/-!
Verification of the plugin-interface module `pydoc_markdown/core/interface.py`.

The module defines the interfaces `IConfigurable`, `ILoader`, `IPreprocessor`,
`ITextPreprocessor` and `IRenderer`.  The only non-trivial algorithm is the
default `ITextPreprocessor.preprocess`, which walks the shared mutable document
tree, applies `preprocess_text` to every `Text` node, and finally calls
`root.collapse_text()`.

The document tree (`Node`/`Text`/`Root` from `pydoc_markdown.core.document`)
is a shared mutable object graph, so it is embedded as an arena: a finite
association list from node ids to node records.  A node record carries the
information the interface module reads: whether the node is a `Text` instance,
its string payload, and the ordered list of child ids.  `preprocess_text`
overrides are modelled as arbitrary state transformers on the arena that may
also raise (return an error string together with the arena at the moment of
the raise, since a Python exception leaves the shared tree in its mutated
state).
-/

/-- Record of one document-tree node as seen by `interface.py`: whether the
object is an instance of `Text`, its string payload, and the ordered ids of
its children. -/
structure NodeData where
  isText : Bool
  text : String
  children : List Nat
deriving Repr, DecidableEq

/-- The shared mutable document tree: a finite map from node ids to node
records, as an association list (later bindings shadow earlier ones). -/
abbrev Arena := List (Nat × NodeData)

/-- Read a node record from the arena; unknown ids read as an inert non-Text
node with no children. -/
def Arena.get (s : Arena) (i : Nat) : NodeData :=
  match s with
  | [] => ⟨false, "", []⟩
  | (j, d) :: rest => if j = i then d else Arena.get rest i

/-- Mutate one node record in place (shadowing the old binding). -/
def Arena.set (s : Arena) (i : Nat) (d : NodeData) : Arena :=
  (i, d) :: s

/-- Model of an overriding `preprocess_text(self, text_node)` method: it may
mutate the whole shared tree and may raise.  On a raise it yields the error
together with the arena at that moment (Python exceptions do not roll back
mutations of the shared tree). -/
abbrev Pt := Arena → Nat → Except (String × Arena) Arena

/-- Outcome of running the traversal of `ITextPreprocessor.preprocess`.
Besides the resulting arena we record two ghost logs: `visits` lists every
node id on which the inner `recursion` function was entered, in order, and
`calls` lists every node id on which `preprocess_text` was invoked, in order.
`err` carries a propagating exception together with the arena at the moment
of the raise; `out` reports exhaustion of the fuel that makes the
(in Python unbounded) recursion total in Lean. -/
inductive RunResult where
  | ok (s : Arena) (visits : List Nat) (calls : List Nat)
  | err (e : String) (s : Arena) (visits : List Nat) (calls : List Nat)
  | out
deriving Repr, DecidableEq

mutual

/-- Embedding of the inner `recursion(node)` function of the default
`ITextPreprocessor.preprocess` (interface.py lines 96-100):

    def recursion(node):
      if isinstance(node, Text):
        self.preprocess_text(node)
      for child in list(node.children):
        recursion(child)

Note the order: `preprocess_text` runs first, and only afterwards is the
snapshot `list(node.children)` taken, from the post-call state.  `visits` and
`calls` are ghost instrumentation logs; `fuel` bounds the recursion depth. -/
def recursion (pt : Pt) (fuel : Nat) (node : Nat) (s : Arena)
    (visits calls : List Nat) : RunResult :=
  match fuel with
  | 0 => .out
  | fuel + 1 =>
    if (Arena.get s node).isText then
      match pt s node with
      | .error (e, s') => .err e s' (visits ++ [node]) (calls ++ [node])
      | .ok s1 =>
        recursionList pt fuel (Arena.get s1 node).children s1
          (visits ++ [node]) (calls ++ [node])
    else
      recursionList pt fuel (Arena.get s node).children s (visits ++ [node]) calls
termination_by structural fuel

/-- The `for child in list(node.children): recursion(child)` loop: the
snapshot list is fixed, while the arena evolves from child to child.  One
unit of fuel is consumed per list step so that the mutual recursion is
structural in `fuel` and hence computable by the kernel. -/
def recursionList (pt : Pt) (fuel : Nat) (l : List Nat) (s : Arena)
    (visits calls : List Nat) : RunResult :=
  match fuel with
  | 0 => .out
  | fuel + 1 =>
    match l with
    | [] => .ok s visits calls
    | c :: rest =>
      match recursion pt fuel c s visits calls with
      | .ok s' visits' calls' => recursionList pt fuel rest s' visits' calls'
      | r => r
termination_by structural fuel

end

/-- The default `preprocess_text` of `ITextPreprocessor` (interface.py lines
104-105): `pass` - it mutates nothing and raises nothing. -/
def preprocess_text_default : Pt := fun s _ => Except.ok s

/-- Modelled from the spec: one level of the collapsing pass of
`Root.collapse_text` from `pydoc_markdown.core.document`, which is not under
src/.  The spec: a collapsing pass "merges every maximal run of adjacent Text
siblings under the same parent into one Text node, concatenating payloads in
document order".  This function merges the runs inside one children list,
working from the right: a Text child directly followed by an (already merged)
Text child absorbs it, keeping the left id, concatenating the payloads in
document order, and - since per the spec a Text is a leaf - clearing the
children of the merged node.  It returns the updated arena and the surviving
children list. -/
def collapse_merge (s : Arena) (l : List Nat) : Arena × List Nat :=
  match l with
  | [] => (s, [])
  | c :: rest =>
    match collapse_merge s rest with
    | (s1, c2 :: rest2) =>
      if (Arena.get s1 c).isText && (Arena.get s1 c2).isText then
        (Arena.set s1 c ⟨true, (Arena.get s1 c).text ++ (Arena.get s1 c2).text, []⟩,
          c :: rest2)
      else
        (s1, c :: c2 :: rest2)
    | (s1, []) => (s1, [c])

mutual

/-- Modelled from the spec: `Root.collapse_text` from
`pydoc_markdown.core.document` (not under src/), recursing over the whole
tree: at each node merge the maximal runs of adjacent Text children into
single Text nodes, install the surviving children list, and recurse into it.
`fuel` bounds the recursion depth. -/
def collapse_text (fuel : Nat) (s : Arena) (n : Nat) : Option Arena :=
  match fuel with
  | 0 => none
  | fuel + 1 =>
    match collapse_merge s (Arena.get s n).children with
    | (s1, cs) =>
      collapse_list fuel
        (Arena.set s1 n ⟨(Arena.get s1 n).isText, (Arena.get s1 n).text, cs⟩) cs
termination_by structural fuel

/-- Recurse the collapse pass into a list of children, threading the arena.
One unit of fuel is consumed per list step. -/
def collapse_list (fuel : Nat) (s : Arena) (l : List Nat) : Option Arena :=
  match fuel with
  | 0 => none
  | fuel + 1 =>
    match l with
    | [] => some s
    | c :: rest =>
      match collapse_text fuel s c with
      | some s1 => collapse_list fuel s1 rest
      | none => none
termination_by structural fuel

end

/-- Embedding of the default `ITextPreprocessor.preprocess` (interface.py
lines 94-102): run `recursion(root)`, then `root.collapse_text()`.  An
exception raised by `preprocess_text` propagates out of the traversal without
being caught, and in that case the collapse pass never runs. -/
def preprocess (pt : Pt) (fuel : Nat) (root : Nat) (s : Arena) : RunResult :=
  match recursion pt fuel root s [] [] with
  | .ok s1 visits calls =>
    match collapse_text fuel s1 root with
    | some s2 => .ok s2 visits calls
    | none => .out
  | r => r

mutual

/-- Pure depth-first pre-order readout of the node ids reachable from `n` in
arena `s`, following the same fuel discipline as `recursion`.  Used to state
which nodes a traversal of the unmodified tree visits. -/
def preo (fuel : Nat) (s : Arena) (n : Nat) : Option (List Nat) :=
  match fuel with
  | 0 => none
  | fuel + 1 =>
    match preoList fuel s (Arena.get s n).children with
    | some l => some (n :: l)
    | none => none
termination_by structural fuel

/-- Pre-order readout of a list of roots, concatenated in order.  One unit of
fuel is consumed per list step, matching the fuel discipline of
`recursionList`. -/
def preoList (fuel : Nat) (s : Arena) (l : List Nat) : Option (List Nat) :=
  match fuel with
  | 0 => none
  | fuel + 1 =>
    match l with
    | [] => some []
    | c :: rest =>
      match preo fuel s c with
      | some a =>
        match preoList fuel s rest with
        | some b => some (a ++ b)
        | none => none
      | none => none
termination_by structural fuel

end

/-- A document tree read out of the arena as a pure value: node kind, payload
and subtrees.  Two arenas represent structurally and textually identical
trees at a root exactly when their readouts at that root agree. -/
inductive PTree where
  | mk (isText : Bool) (text : String) (children : List PTree)
deriving Repr

mutual

/-- Read the tree rooted at `n` out of arena `s` as a pure value. -/
def readTree (fuel : Nat) (s : Arena) (n : Nat) : Option PTree :=
  match fuel with
  | 0 => none
  | fuel + 1 =>
    match readTreeList fuel s (Arena.get s n).children with
    | some ts => some (.mk (Arena.get s n).isText (Arena.get s n).text ts)
    | none => none
termination_by structural fuel

/-- Read a list of subtrees out of arena `s`.  One unit of fuel is consumed
per list step. -/
def readTreeList (fuel : Nat) (s : Arena) (l : List Nat) : Option (List PTree) :=
  match fuel with
  | 0 => none
  | fuel + 1 =>
    match l with
    | [] => some []
    | c :: rest =>
      match readTree fuel s c with
      | some t =>
        match readTreeList fuel s rest with
        | some ts => some (t :: ts)
        | none => none
      | none => none
termination_by structural fuel

end

/-- Embedding of `ILoader.load_document(self, modspec, doc)` (interface.py
lines 62-71): the body is a bare `raise NotImplementedError`, performed before
any mutation, so the arena carried alongside the error is the input arena. -/
def ILoader.load_document (modspec : String) (s : Arena) (doc : Nat) :
    Except (String × Arena) Arena :=
  .error ("NotImplementedError", s)

/-- Embedding of the general `IPreprocessor.preprocess(self, root)`
(interface.py lines 80-85): the body is a bare `raise NotImplementedError`. -/
def IPreprocessor.preprocess (s : Arena) (root : Nat) :
    Except (String × Arena) Arena :=
  .error ("NotImplementedError", s)

/-- Embedding of `IRenderer.render(self, directory, root)` (interface.py
lines 114-121): the body is empty (a bare docstring), so the call returns
None, raises nothing and mutates nothing. -/
def IRenderer.render (directory : String) (s : Arena) (root : Nat) :
    Except (String × Arena) Arena :=
  .ok s

/-- Embedding of `IRenderer.render_document(self, fp, document)`
(interface.py lines 123-127): empty body. -/
def IRenderer.render_document (fp : String) (s : Arena) (document : Nat) :
    Except (String × Arena) Arena :=
  .ok s

/-- Embedding of `IRenderer.load_renderer_document(self, root, name,
document)` (interface.py lines 129-135): empty body. -/
def IRenderer.load_renderer_document (s : Arena) (root : Nat) (name : String)
    (document : Nat) : Except (String × Arena) Arena :=
  .ok s

/-- Two arenas agree on the tree shape: every node id has the same kind and
the same children list (payloads may differ). -/
def ShapeEq (s t : Arena) : Prop :=
  ∀ m, (Arena.get t m).isText = (Arena.get s m).isText ∧
    (Arena.get t m).children = (Arena.get s m).children

/-- A `preprocess_text` override that performs no structural mutation: on any
state it succeeds and only rewrites string payloads, leaving the kind and the
children list of every node unchanged. -/
def StructPres (pt : Pt) : Prop :=
  ∀ s n, ∃ s', pt s n = Except.ok s' ∧ ShapeEq s s'

/-- Effect of one `preprocess_text` call that splits or edits the Text node
`n` it is given by inserting freshly created sibling nodes (ids `≥ B`) next
to it and possibly detaching `n` or other old siblings from the parent's
children list, in the style the spec describes for text preprocessors.
Relative to the pre-call arena `t`:
  - the kind of every old node (id `< B`) is unchanged, and the payload of
    every old node other than `n` is unchanged;
  - restricted to old ids, every old node's children list only loses
    elements (fresh ids may be inserted, old ids may be detached, none are
    added);
  - a children list of an old node is modified only if `n` is one of its
    children (the edit happens at a parent of the node the call was given);
  - the children list of `n` itself is untouched. -/
def SiblingEdit (B : Nat) (n : Nat) (t t' : Arena) : Prop :=
  (∀ m, m < B → (Arena.get t' m).isText = (Arena.get t m).isText) ∧
  (∀ m, m < B → m ≠ n → (Arena.get t' m).text = (Arena.get t m).text) ∧
  (∀ m, m < B →
    ((Arena.get t' m).children.filter (fun i => i < B)).Sublist
      ((Arena.get t m).children.filter (fun i => i < B))) ∧
  (∀ m, m < B → (Arena.get t' m).children ≠ (Arena.get t m).children →
    n ∈ (Arena.get t m).children) ∧
  (Arena.get t' n).children = (Arena.get t n).children

/-- A `preprocess_text` override of the sibling-splicing kind: on every Text
node it succeeds and performs a `SiblingEdit` with fresh ids above `B`. -/
def InsertPt (B : Nat) (pt : Pt) : Prop :=
  ∀ t n, (Arena.get t n).isText = true →
    ∃ t', pt t n = Except.ok t' ∧ SiblingEdit B n t t'

/-- Spec well-formedness of the tree rooted in the listed nodes: a Text node
is a leaf ("a leaf node carrying a string payload and no children"). -/
def TextLeaves (s : Arena) (ns : List Nat) : Prop :=
  ∀ m ∈ ns, (Arena.get s m).isText = true → (Arena.get s m).children = []

/-- Ghost extractor: the list of nodes `preprocess_text` was invoked on. -/
def RunResult.callsOf : RunResult → List Nat
  | .ok _ _ calls => calls
  | .err _ _ _ calls => calls
  | .out => []

/-- Ghost extractor: the error message of a failed run, if any. -/
def RunResult.errOf : RunResult → Option String
  | .err e _ _ _ => some e
  | _ => none

/-- Ghost extractor: the arena of a completed or failed run. -/
def RunResult.stateOf : RunResult → Option Arena
  | .ok s _ _ => some s
  | .err _ s _ _ => some s
  | .out => none

/-- Example tree: a non-Text root (id 0) with three Text children holding
"a", "b", "c". -/
def exTree : Arena :=
  [(0, ⟨false, "", [1, 2, 3]⟩), (1, ⟨true, "a", []⟩),
   (2, ⟨true, "b", []⟩), (3, ⟨true, "c", []⟩)]

/-- Example override that raises on every Text node it is given. -/
def ptRaise : Pt := fun s _ => .error ("TransformError", s)

/-- Example override that rewrites the payload of node 1 and raises on every
other Text node. -/
def ptMutRaise : Pt := fun s n =>
  if n = 1 then .ok (Arena.set s 1 ⟨true, "A", []⟩)
  else .error ("TransformError", s)

/-- Example tree: a non-Text root (id 0) with a single Text child (id 1). -/
def exParent : Arena := [(0, ⟨false, "", [1]⟩), (1, ⟨true, "a", []⟩)]

/-- Example override that, when given Text node 1, appends a freshly created
Text node (id 9) to the children of node 1 itself. -/
def ptSelfInsert : Pt := fun s n =>
  if n = 1 then .ok (Arena.set (Arena.set s 9 ⟨true, "new", []⟩) 1 ⟨true, "a", [9]⟩)
  else .ok s

/-- The arena `ptSelfInsert` produces when invoked on node 1 of `exParent`:
node 9 exists and is a child of node 1. -/
def exParentIns : Arena :=
  Arena.set (Arena.set exParent 9 ⟨true, "new", []⟩) 1 ⟨true, "a", [9]⟩

/-- The arena produced by running the default `ITextPreprocessor.preprocess`
with the default no-op `preprocess_text` on `exTree`. -/
def exTreeCollapsed : Arena :=
  ((preprocess preprocess_text_default 10 0 exTree).stateOf).getD []

/-- The arena produced by a second run of the default preprocess (with the
default no-op `preprocess_text`) on the already collapsed `exTreeCollapsed`. -/
def exTreeCollapsed2 : Arena :=
  ((preprocess preprocess_text_default 10 0 exTreeCollapsed).stateOf).getD []

/-- Example override that appends a bang to the payload of the node it is
given, a structural no-op. -/
def ptBang : Pt := fun s n =>
  .ok (Arena.set s n
    ⟨(Arena.get s n).isText, (Arena.get s n).text ++ "!", (Arena.get s n).children⟩)

/-- Ghost function: the ids surviving the merge of one children list, reading
node kinds from the fixed reference arena `s` (node kinds never change during
a collapse pass, so this describes `collapse_merge`'s surviving list). -/
def mergeIds (s : Arena) (l : List Nat) : List Nat :=
  match l with
  | [] => []
  | c :: rest =>
    match mergeIds s rest with
    | c2 :: rest2 =>
      if (Arena.get s c).isText && (Arena.get s c2).isText then c :: rest2
      else c :: c2 :: rest2
    | [] => [c]

/-- Ghost function: the ids surviving the merge of one children list paired
with the payload each carries after the merge (the head of a Text run
absorbs the payloads of its run, concatenated in document order). -/
def mergedEntries (s : Arena) (l : List Nat) : List (Nat × String) :=
  match l with
  | [] => []
  | c :: rest =>
    match mergedEntries s rest with
    | (c2, t2) :: rest2 =>
      if (Arena.get s c).isText && (Arena.get s c2).isText then
        (c, (Arena.get s c).text ++ t2) :: rest2
      else (c, (Arena.get s c).text) :: (c2, t2) :: rest2
    | [] => [(c, (Arena.get s c).text)]

/-- Ghost function: concatenation, in document order, of the payloads the
listed nodes hold in arena `s`. -/
def joinTexts (s : Arena) (l : List Nat) : String :=
  match l with
  | [] => ""
  | c :: rest => (Arena.get s c).text ++ joinTexts s rest

/-- No two adjacent ids in the list are both Text nodes of `s`. -/
def noAdjText (s : Arena) : List Nat → Prop
  | [] => True
  | [_] => True
  | c :: c2 :: rest =>
    ¬((Arena.get s c).isText = true ∧ (Arena.get s c2).isText = true) ∧
      noAdjText s (c2 :: rest)

/-- Two arenas are observationally equal: every id reads the same record. -/
def GetEq (s t : Arena) : Prop := ∀ i, Arena.get s i = Arena.get t i

/-- The shape the collapse pass guarantees at a parent `p` whose children,
at the start of the pass (arena `s`), were a nonempty all-Text list: in the
final arena `t'` the parent has exactly one Text child, the first original
child, and its payload is the concatenation of the original payloads in
document order. -/
def CollapsedParent (s t' : Arena) (p : Nat) : Prop :=
  ∀ c0 rest0, (Arena.get s p).isText = false →
    (Arena.get s p).children = c0 :: rest0 →
    (∀ c ∈ c0 :: rest0, (Arena.get s c).isText = true) →
    (Arena.get t' p).children = [c0] ∧
    (Arena.get t' c0).isText = true ∧
    (Arena.get t' c0).text = joinTexts s (c0 :: rest0)

/-- Splicing rule of the example splitting override: the Text node 1 is
replaced by itself followed by a fresh sibling (id 20), its sibling 2 is
detached, everything else is kept. -/
def splitChild (c : Nat) : List Nat :=
  if c = 1 then [1, 20] else if c = 2 then [] else [c]

/-- Apply the splicing rule across a children list. -/
def spliceList (l : List Nat) : List Nat :=
  match l with
  | [] => []
  | c :: rest => splitChild c ++ spliceList rest

/-- Example splitting override in the style the spec describes: when given
Text node 1 (still attached under node 0), it creates a fresh Text sibling
(id 20) next to node 1 inside node 0's children and detaches the upcoming
sibling 2; on every other node it does nothing. -/
def ptSplit : Pt := fun t n =>
  if n = 1 ∧ 1 ∈ (Arena.get t 0).children then
    .ok (Arena.set (Arena.set t 20 ⟨true, "x", []⟩) 0
      ⟨(Arena.get t 0).isText, (Arena.get t 0).text,
       spliceList (Arena.get t 0).children⟩)
  else .ok t

/-! ## Basic lemmas about the arena -/

theorem Arena.get_set (s : Arena) (i : Nat) (d : NodeData) (j : Nat) :
    Arena.get (Arena.set s i d) j = if i = j then d else Arena.get s j := by
  simp [Arena.get, Arena.set]

/-! ## Claims about the trivial interface bodies -/

/-- C8: each of the three `IRenderer` operations, when not overridden, is a
no-op: it returns successfully with no value, raises nothing, and leaves the
tree (and every other argument) unchanged. -/
theorem c8_renderer_defaults_are_noops :
    ∀ (directory fp name : String) (s : Arena) (root document : Nat),
      IRenderer.render directory s root = Except.ok s ∧
      IRenderer.render_document fp s document = Except.ok s ∧
      IRenderer.load_renderer_document s root name document = Except.ok s := by
  intro directory fp name s root document
  exact ⟨rfl, rfl, rfl⟩

/-- C10: `ILoader.load_document` and the general `IPreprocessor.preprocess`
have no default behaviour: on every input they raise `NotImplementedError`
and leave the given document or root unchanged (the arena carried with the
error is the input arena). -/
theorem c10_loader_preprocessor_not_implemented :
    ∀ (modspec : String) (s : Arena) (doc root : Nat),
      ILoader.load_document modspec s doc =
        Except.error ("NotImplementedError", s) ∧
      IPreprocessor.preprocess s root =
        Except.error ("NotImplementedError", s) := by
  intro modspec s doc root
  exact ⟨rfl, rfl⟩

/-! ## Error propagation through the default `ITextPreprocessor.preprocess` -/

/-- C6: if `preprocess_text` raises on some node during the traversal, the
default `ITextPreprocessor.preprocess` does not catch the exception: the same
error propagates to the caller as the failure of the whole preprocessing pass
for that root. -/
theorem c6_error_propagates (pt : Pt) (fuel root : Nat) (s s' : Arena)
    (e : String) (vs cs : List Nat)
    (h : recursion pt fuel root s [] [] = .err e s' vs cs) :
    (preprocess pt fuel root s).errOf = some e := by
  unfold preprocess
  rw [h]
  rfl

theorem c6_error_propagates_witness :
    recursion ptRaise 9 0 exTree [] [] = .err "TransformError" exTree [0, 1] [1] ∧
    (preprocess ptRaise 9 0 exTree).errOf = some "TransformError" :=
  ⟨by decide,
   c6_error_propagates ptRaise 9 0 exTree exTree "TransformError" [0, 1] [1]
     (by decide)⟩

/-- C7: if `preprocess_text` raises partway through the traversal, then the
collapse pass is not executed for that call and the run is not rolled back:
the arena reported with the propagating error is exactly the traversal's
arena at the moment of the raise, so mutations made to Text nodes visited
before the failure remain in the tree. -/
theorem c7_no_collapse_no_rollback_on_error (pt : Pt) (fuel root : Nat)
    (s s' : Arena) (e : String) (vs cs : List Nat)
    (h : recursion pt fuel root s [] [] = .err e s' vs cs) :
    preprocess pt fuel root s = .err e s' vs cs := by
  unfold preprocess
  rw [h]

theorem c7_no_collapse_no_rollback_on_error_witness :
    recursion ptMutRaise 9 0 exTree [] [] =
      .err "TransformError" (Arena.set exTree 1 ⟨true, "A", []⟩) [0, 1, 2] [1, 2] ∧
    preprocess ptMutRaise 9 0 exTree =
      .err "TransformError" (Arena.set exTree 1 ⟨true, "A", []⟩) [0, 1, 2] [1, 2] ∧
    (Arena.get (Arena.set exTree 1 ⟨true, "A", []⟩) 1).text = "A" ∧
    (Arena.get exTree 1).text = "a" :=
  ⟨by decide,
   c7_no_collapse_no_rollback_on_error ptMutRaise 9 0 exTree
     (Arena.set exTree 1 ⟨true, "A", []⟩) "TransformError" [0, 1, 2] [1, 2]
     (by decide),
   by decide, by decide⟩

/-! ## The snapshot is taken after `preprocess_text` runs on the node -/

/-- C3 counterexample: in the code the snapshot `list(node.children)` is
taken after `self.preprocess_text(node)` has run, not before.  On the tree
`exParent`, the override `ptSelfInsert`, invoked on Text node 1, appends a
fresh Text node 9 to the children of node 1 itself; the traversal then visits
node 9 and invokes `preprocess_text` on it in the same pass, contradicting
the claim that children added to a node by its own `preprocess_text` call are
never visited in the same pass. -/
theorem c3_counterexample :
    ptSelfInsert exParent 1 = Except.ok exParentIns ∧
    (Arena.get exParent 1).children = [] ∧
    (Arena.get exParentIns 1).children = [9] ∧
    RunResult.callsOf (recursion ptSelfInsert 9 0 exParent [] []) = [1, 9] := by
  refine ⟨rfl, by decide, by decide, by decide⟩

/-- Unfolding equation for `recursionList` at zero fuel. -/
theorem recursionList_zero (pt : Pt) (l : List Nat) (s : Arena)
    (vs cs : List Nat) : recursionList pt 0 l s vs cs = .out := rfl

/-- Unfolding equation for `recursionList` at positive fuel, empty list. -/
theorem recursionList_succ_nil (pt : Pt) (fuel : Nat) (s : Arena)
    (vs cs : List Nat) :
    recursionList pt (fuel + 1) [] s vs cs = .ok s vs cs := rfl

/-- Unfolding equation for `recursionList` at positive fuel, nonempty list. -/
theorem recursionList_succ_cons (pt : Pt) (fuel : Nat) (c : Nat)
    (rest : List Nat) (s : Arena) (vs cs : List Nat) :
    recursionList pt (fuel + 1) (c :: rest) s vs cs =
      match recursion pt fuel c s vs cs with
      | .ok s' visits' calls' => recursionList pt fuel rest s' visits' calls'
      | r => r := rfl

/-- Helper: on a successful run, `recursion` appends its node to the visit
log, and `recursionList` enters every element of the snapshot list it was
given (each snapshot child ends up in the visit log). -/
theorem recursion_visits_spec (fuel : Nat) :
    (∀ (pt : Pt) (n : Nat) (s : Arena) (vs cs : List Nat) (s' : Arena)
      (vs' cs' : List Nat),
      recursion pt fuel n s vs cs = .ok s' vs' cs' → ∃ d, vs' = vs ++ n :: d) ∧
    (∀ (pt : Pt) (l : List Nat) (s : Arena) (vs cs : List Nat) (s' : Arena)
      (vs' cs' : List Nat),
      recursionList pt fuel l s vs cs = .ok s' vs' cs' →
        (∃ d, vs' = vs ++ d) ∧ ∀ c ∈ l, c ∈ vs') := by
  induction fuel with
  | zero =>
    constructor
    · intro pt n s vs cs s' vs' cs' h
      simp [recursion] at h
    · intro pt l s vs cs s' vs' cs' h
      simp [recursionList] at h
  | succ fuel ih =>
    constructor
    · intro pt n s vs cs s' vs' cs' h
      rw [recursion] at h
      by_cases ht : (Arena.get s n).isText
      · rw [if_pos ht] at h
        cases hp : pt s n with
        | error pr => rw [hp] at h; cases h
        | ok s1 =>
          rw [hp] at h
          obtain ⟨d, hd⟩ := (ih.2 pt _ s1 _ _ s' vs' cs' h).1
          exact ⟨d, by simpa using hd⟩
      · rw [if_neg ht] at h
        obtain ⟨d, hd⟩ := (ih.2 pt _ s _ _ s' vs' cs' h).1
        exact ⟨d, by simpa using hd⟩
    · intro pt l s vs cs s' vs' cs' h
      cases l with
      | nil =>
        rw [recursionList_succ_nil] at h
        cases h
        exact ⟨⟨[], by simp⟩, by simp⟩
      | cons c rest =>
        rw [recursionList_succ_cons] at h
        cases hr : recursion pt fuel c s vs cs with
        | ok s1 vs1 cs1 =>
          rw [hr] at h
          obtain ⟨d1, hd1⟩ := ih.1 pt c s vs cs s1 vs1 cs1 hr
          obtain ⟨⟨d2, hd2⟩, hmem⟩ := ih.2 pt rest s1 vs1 cs1 s' vs' cs' h
          constructor
          · exact ⟨(c :: d1) ++ d2, by rw [hd2, hd1]; simp⟩
          · intro x hx
            rcases List.mem_cons.mp hx with hx | hx
            · subst hx
              rw [hd2, hd1]
              simp
            · exact hmem x hx
        | err e se vse cse => rw [hr] at h; cases h
        | out => rw [hr] at h; cases h

/-- C3 (amended): the snapshot of a node's children used for recursion is
taken immediately after `preprocess_text` has been applied to that node, not
before; consequently children added to the node by its own `preprocess_text`
call ARE visited (and, being part of the traversal, processed) in the same
pass.  The first conjunct exhibits the snapshot as the children list of the
post-call arena `s1`; the second states that on a successful run every child
present in that post-call snapshot, including freshly added ones, is entered
by the traversal. -/
theorem c3_amended_snapshot_after_call (pt : Pt) (fuel n : Nat) (s s1 : Arena)
    (vs cs : List Nat) (s' : Arena) (vs' cs' : List Nat)
    (htext : (Arena.get s n).isText = true)
    (hpt : pt s n = Except.ok s1)
    (hrun : recursion pt (fuel + 1) n s vs cs = .ok s' vs' cs') :
    recursion pt (fuel + 1) n s vs cs =
      recursionList pt fuel (Arena.get s1 n).children s1 (vs ++ [n]) (cs ++ [n]) ∧
    ∀ c ∈ (Arena.get s1 n).children, c ∈ vs' := by
  have heq : recursion pt (fuel + 1) n s vs cs =
      recursionList pt fuel (Arena.get s1 n).children s1 (vs ++ [n]) (cs ++ [n]) := by
    rw [recursion, if_pos htext, hpt]
  refine ⟨heq, ?_⟩
  have h2 : recursionList pt fuel (Arena.get s1 n).children s1
      (vs ++ [n]) (cs ++ [n]) = .ok s' vs' cs' := heq ▸ hrun
  exact ((recursion_visits_spec fuel).2 pt _ s1 _ _ s' vs' cs' h2).2

theorem c3_amended_snapshot_after_call_witness :
    (Arena.get exParent 1).isText = true ∧
    ptSelfInsert exParent 1 = Except.ok exParentIns ∧
    recursion ptSelfInsert 9 1 exParent [] [] = .ok exParentIns [1, 9] [1, 9] ∧
    9 ∈ ([1, 9] : List Nat) :=
  ⟨by decide, rfl, by decide,
   (c3_amended_snapshot_after_call ptSelfInsert 8 1 exParent exParentIns [] []
     exParentIns [1, 9] [1, 9] (by decide) rfl (by decide)).2 9 (by decide)⟩

/-- Helper: with the default (no-op) `preprocess_text`, the traversal never
changes the arena: it either runs out of fuel or returns the input arena. -/
theorem recursion_noop_state (fuel : Nat) :
    (∀ (n : Nat) (s : Arena) (vs cs : List Nat),
      recursion preprocess_text_default fuel n s vs cs = .out ∨
      ∃ vs' cs', recursion preprocess_text_default fuel n s vs cs = .ok s vs' cs') ∧
    (∀ (l : List Nat) (s : Arena) (vs cs : List Nat),
      recursionList preprocess_text_default fuel l s vs cs = .out ∨
      ∃ vs' cs',
        recursionList preprocess_text_default fuel l s vs cs = .ok s vs' cs') := by
  induction fuel with
  | zero =>
    exact ⟨fun n s vs cs => Or.inl (by rw [recursion]),
           fun l s vs cs => Or.inl (recursionList_zero ..)⟩
  | succ fuel ih =>
    constructor
    · intro n s vs cs
      rw [recursion]
      by_cases ht : (Arena.get s n).isText
      · rw [if_pos ht]
        show recursionList preprocess_text_default fuel (Arena.get s n).children s
            (vs ++ [n]) (cs ++ [n]) = .out ∨ _
        exact ih.2 _ s _ _
      · rw [if_neg ht]
        exact ih.2 _ s _ _
    · intro l s vs cs
      cases l with
      | nil => exact Or.inr ⟨vs, cs, recursionList_succ_nil ..⟩
      | cons c rest =>
        rw [recursionList_succ_cons]
        rcases ih.1 c s vs cs with h | ⟨vs1, cs1, h⟩
        · rw [h]
          exact Or.inl rfl
        · rw [h]
          exact ih.2 rest s vs1 cs1

/-- C9: with the default no-op `preprocess_text`, the default
`ITextPreprocessor.preprocess` produces exactly the same tree as calling
`root.collapse_text()` alone on the input arena - the traversal contributes
no observable effect (stated for every run the fuel suffices for; on fuel
exhaustion both sides are undefined). -/
theorem c9_noop_preprocess_is_collapse (fuel root : Nat) (s : Arena)
    (h : recursion preprocess_text_default fuel root s [] [] ≠ .out) :
    (preprocess preprocess_text_default fuel root s).stateOf =
      collapse_text fuel s root := by
  rcases (recursion_noop_state fuel).1 root s [] [] with h0 | ⟨vs, cs, h0⟩
  · exact absurd h0 h
  · unfold preprocess
    rw [h0]
    dsimp only
    cases hc : collapse_text fuel s root with
    | some s2 => rfl
    | none => rfl

theorem c9_noop_preprocess_is_collapse_witness :
    recursion preprocess_text_default 10 0 exTree [] [] ≠ .out ∧
    (preprocess preprocess_text_default 10 0 exTree).stateOf =
      collapse_text 10 exTree 0 :=
  ⟨by decide, c9_noop_preprocess_is_collapse 10 0 exTree (by decide)⟩

/-! ## Structure-preserving overrides visit the tree in document pre-order -/

/-- Unfolding equation for `preo` at zero fuel. -/
theorem preo_zero (s : Arena) (n : Nat) : preo 0 s n = none := rfl

/-- Unfolding equation for `preo` at positive fuel. -/
theorem preo_succ (fuel : Nat) (s : Arena) (n : Nat) :
    preo (fuel + 1) s n =
      match preoList fuel s (Arena.get s n).children with
      | some l => some (n :: l)
      | none => none := rfl

/-- Unfolding equation for `preoList` at positive fuel, empty list. -/
theorem preoList_succ_nil (fuel : Nat) (s : Arena) :
    preoList (fuel + 1) s [] = some [] := rfl

/-- Unfolding equation for `preoList` at positive fuel, nonempty list. -/
theorem preoList_succ_cons (fuel : Nat) (s : Arena) (c : Nat) (rest : List Nat) :
    preoList (fuel + 1) s (c :: rest) =
      match preo fuel s c with
      | some a =>
        match preoList fuel s rest with
        | some b => some (a ++ b)
        | none => none
      | none => none := rfl

/-- Shape agreement is reflexive. -/
theorem shapeEq_refl (s : Arena) : ShapeEq s s := fun _ => ⟨rfl, rfl⟩

/-- Shape agreement composes. -/
theorem shapeEq_trans {s t u : Arena} (h1 : ShapeEq s t) (h2 : ShapeEq t u) :
    ShapeEq s u := fun m =>
  ⟨(h2 m).1.trans (h1 m).1, (h2 m).2.trans (h1 m).2⟩

/-- Helper: a structure-preserving override leaves the traversal on the
rails of the pre-order of the original arena `s`: on any arena `t` of the
same shape as `s`, `recursion` succeeds (given the fuel the pre-order
readout succeeds with), visits exactly the pre-order nodes, invokes
`preprocess_text` exactly on the Text nodes among them in pre-order, and
returns an arena that still has the shape of `s`. -/
theorem recursion_structpres (pt : Pt) (hpt : StructPres pt) (fuel : Nat) :
    (∀ (n : Nat) (s t : Arena) (vs cs : List Nat) (l : List Nat),
      ShapeEq s t → preo fuel s n = some l →
      ∃ t', recursion pt fuel n t vs cs =
          .ok t' (vs ++ l) (cs ++ l.filter (fun m => (Arena.get s m).isText)) ∧
        ShapeEq s t') ∧
    (∀ (ls : List Nat) (s t : Arena) (vs cs : List Nat) (l : List Nat),
      ShapeEq s t → preoList fuel s ls = some l →
      ∃ t', recursionList pt fuel ls t vs cs =
          .ok t' (vs ++ l) (cs ++ l.filter (fun m => (Arena.get s m).isText)) ∧
        ShapeEq s t') := by
  induction fuel with
  | zero =>
    constructor
    · intro n s t vs cs l hsh hp
      rw [preo_zero] at hp
      cases hp
    · intro ls s t vs cs l hsh hp
      simp [preoList] at hp
  | succ fuel ih =>
    constructor
    · intro n s t vs cs l hsh hp
      rw [preo_succ] at hp
      cases hpl : preoList fuel s (Arena.get s n).children with
      | none => rw [hpl] at hp; cases hp
      | some l2 =>
        rw [hpl] at hp
        cases hp
        rw [recursion]
        have hch : (Arena.get t n).children = (Arena.get s n).children := (hsh n).2
        by_cases htx : (Arena.get s n).isText = true
        · rw [if_pos (by rw [(hsh n).1]; exact htx)]
          obtain ⟨t1, hpt1, hsh1⟩ := hpt t n
          rw [hpt1]
          dsimp only
          have hch1 : (Arena.get t1 n).children = (Arena.get s n).children := by
            rw [(hsh1 n).2, hch]
          obtain ⟨t', hrun, hsh'⟩ :=
            ih.2 (Arena.get s n).children s t1 (vs ++ [n]) (cs ++ [n]) l2
              (shapeEq_trans hsh hsh1) hpl
          refine ⟨t', ?_, hsh'⟩
          rw [hch1, hrun]
          have : List.filter (fun m => (Arena.get s m).isText) (n :: l2) =
              n :: List.filter (fun m => (Arena.get s m).isText) l2 := by
            simp [List.filter, htx]
          rw [this]
          simp
        · rw [if_neg (by rw [(hsh n).1]; exact htx)]
          obtain ⟨t', hrun, hsh'⟩ :=
            ih.2 (Arena.get s n).children s t (vs ++ [n]) cs l2 hsh hpl
          refine ⟨t', ?_, hsh'⟩
          rw [hch, hrun]
          have : List.filter (fun m => (Arena.get s m).isText) (n :: l2) =
              List.filter (fun m => (Arena.get s m).isText) l2 := by
            simp [List.filter, htx]
          rw [this]
          simp
    · intro ls s t vs cs l hsh hp
      cases ls with
      | nil =>
        rw [preoList_succ_nil] at hp
        cases hp
        exact ⟨t, by rw [recursionList_succ_nil]; simp, hsh⟩
      | cons c rest =>
        rw [preoList_succ_cons] at hp
        cases hpa : preo fuel s c with
        | none => rw [hpa] at hp; cases hp
        | some a =>
          rw [hpa] at hp
          cases hpb : preoList fuel s rest with
          | none => rw [hpb] at hp; cases hp
          | some b =>
            rw [hpb] at hp
            cases hp
            obtain ⟨t1, hrun1, hsh1⟩ := ih.1 c s t vs cs a hsh hpa
            obtain ⟨t2, hrun2, hsh2⟩ := ih.2 rest s t1 (vs ++ a)
              (cs ++ a.filter (fun m => (Arena.get s m).isText)) b hsh1 hpb
            refine ⟨t2, ?_, hsh2⟩
            rw [recursionList_succ_cons, hrun1]
            dsimp only
            rw [hrun2]
            simp

/-- The bang-appending override preserves structure. -/
theorem ptBang_structpres : StructPres ptBang := by
  intro s n
  refine ⟨_, rfl, fun m => ?_⟩
  rw [Arena.get_set]
  by_cases h : n = m
  · subst h
    simp
  · rw [if_neg h]
    exact ⟨rfl, rfl⟩

/-- C5: for every tree on which `preprocess_text` performs no structural
mutation (it only rewrites payloads), the default traversal invokes
`preprocess_text` exactly once per Text node, in depth-first pre-order
(document order), and never on a non-Text node: the call log equals the
pre-order node list of the input tree filtered to its Text nodes, so under
the no-sharing hypothesis `ns.Nodup` each Text node occurs exactly once, the
order is pre-order, and every logged node is a Text node. -/
theorem c5_calls_once_preorder_texts (pt : Pt) (fuel root : Nat) (s : Arena)
    (ns : List Nat) (hpt : StructPres pt) (hns : preo fuel s root = some ns)
    (hnd : ns.Nodup) :
    ∃ s', recursion pt fuel root s [] [] =
        .ok s' ns (ns.filter (fun m => (Arena.get s m).isText)) ∧
      (ns.filter (fun m => (Arena.get s m).isText)).Nodup ∧
      ∀ m ∈ ns.filter (fun m => (Arena.get s m).isText),
        (Arena.get s m).isText = true := by
  obtain ⟨s', hrun, hsh⟩ :=
    (recursion_structpres pt hpt fuel).1 root s s [] [] ns (shapeEq_refl s) hns
  refine ⟨s', by simpa using hrun, hnd.filter _, fun m hm => ?_⟩
  exact (List.mem_filter.mp hm).2

theorem c5_calls_once_preorder_texts_witness :
    preo 10 exTree 0 = some [0, 1, 2, 3] ∧
    ([0, 1, 2, 3] : List Nat).Nodup ∧
    ∃ s', recursion ptBang 10 0 exTree [] [] =
        .ok s' [0, 1, 2, 3]
          (([0, 1, 2, 3] : List Nat).filter (fun m => (Arena.get exTree m).isText)) ∧
      (([0, 1, 2, 3] : List Nat).filter
        (fun m => (Arena.get exTree m).isText)).Nodup ∧
      ∀ m ∈ ([0, 1, 2, 3] : List Nat).filter
        (fun m => (Arena.get exTree m).isText), (Arena.get exTree m).isText = true :=
  ⟨by decide, by decide,
   c5_calls_once_preorder_texts ptBang 10 0 exTree [0, 1, 2, 3] ptBang_structpres
     (by decide) (by decide)⟩

/-! ## Infrastructure about the pre-order readout and the collapse pass -/

/-- A successful pre-order readout starts with its root. -/
theorem preo_head (fuel : Nat) (s : Arena) (n : Nat) (l : List Nat)
    (h : preo fuel s n = some l) : ∃ l2, l = n :: l2 := by
  cases fuel with
  | zero => rw [preo_zero] at h; cases h
  | succ fuel =>
    rw [preo_succ] at h
    cases hp : preoList fuel s (Arena.get s n).children with
    | none => rw [hp] at h; cases h
    | some l2 => rw [hp] at h; cases h; exact ⟨l2, rfl⟩

/-- The pre-order readout is monotone in fuel. -/
theorem preo_mono (fuel : Nat) :
    (∀ (s : Arena) (n : Nat) (l : List Nat),
      preo fuel s n = some l → preo (fuel + 1) s n = some l) ∧
    (∀ (s : Arena) (ls L : List Nat),
      preoList fuel s ls = some L → preoList (fuel + 1) s ls = some L) := by
  induction fuel with
  | zero =>
    constructor
    · intro s n l h; rw [preo_zero] at h; cases h
    · intro s ls L h; simp [preoList] at h
  | succ fuel ih =>
    constructor
    · intro s n l h
      rw [preo_succ] at h
      cases hp : preoList fuel s (Arena.get s n).children with
      | none => rw [hp] at h; cases h
      | some l2 =>
        rw [hp] at h
        cases h
        rw [preo_succ, ih.2 s _ l2 hp]
    · intro s ls L h
      cases ls with
      | nil =>
        rw [preoList_succ_nil] at h
        cases h
        rw [preoList_succ_nil]
      | cons c rest =>
        rw [preoList_succ_cons] at h
        cases hpa : preo fuel s c with
        | none => rw [hpa] at h; cases h
        | some a =>
          rw [hpa] at h
          cases hpb : preoList fuel s rest with
          | none => rw [hpb] at h; cases h
          | some b =>
            rw [hpb] at h
            cases h
            rw [preoList_succ_cons, ih.1 s c a hpa, ih.2 s rest b hpb]

/-- The pre-order readout contains its roots and is closed under children. -/
theorem preo_closure (fuel : Nat) :
    (∀ (s : Arena) (n : Nat) (l : List Nat), preo fuel s n = some l →
      n ∈ l ∧ ∀ m ∈ l, ∀ c ∈ (Arena.get s m).children, c ∈ l) ∧
    (∀ (s : Arena) (ls L : List Nat), preoList fuel s ls = some L →
      (∀ c ∈ ls, c ∈ L) ∧ ∀ m ∈ L, ∀ c ∈ (Arena.get s m).children, c ∈ L) := by
  induction fuel with
  | zero =>
    constructor
    · intro s n l h; rw [preo_zero] at h; cases h
    · intro s ls L h; simp [preoList] at h
  | succ fuel ih =>
    constructor
    · intro s n l h
      rw [preo_succ] at h
      cases hp : preoList fuel s (Arena.get s n).children with
      | none => rw [hp] at h; cases h
      | some l2 =>
        rw [hp] at h
        cases h
        refine ⟨List.mem_cons_self n l2, ?_⟩
        intro m hm c hc
        rcases List.mem_cons.mp hm with hm | hm
        · subst hm
          exact List.mem_cons_of_mem _ ((ih.2 s _ l2 hp).1 c hc)
        · exact List.mem_cons_of_mem _ ((ih.2 s _ l2 hp).2 m hm c hc)
    · intro s ls L h
      cases ls with
      | nil =>
        rw [preoList_succ_nil] at h
        cases h
        exact ⟨by simp, by simp⟩
      | cons c rest =>
        rw [preoList_succ_cons] at h
        cases hpa : preo fuel s c with
        | none => rw [hpa] at h; cases h
        | some a =>
          rw [hpa] at h
          cases hpb : preoList fuel s rest with
          | none => rw [hpb] at h; cases h
          | some b =>
            rw [hpb] at h
            cases h
            obtain ⟨hma, hcla⟩ := ih.1 s c a hpa
            obtain ⟨hmb, hclb⟩ := ih.2 s rest b hpb
            constructor
            · intro x hx
              rcases List.mem_cons.mp hx with hx | hx
              · subst hx; exact List.mem_append_left b hma
              · exact List.mem_append_right a (hmb x hx)
            · intro m hm c' hc'
              rcases List.mem_append.mp hm with hm | hm
              · exact List.mem_append_left b (hcla m hm c' hc')
              · exact List.mem_append_right a (hclb m hm c' hc')

/-- The roots of a pre-order list readout form a sublist of the readout. -/
theorem preoList_heads_sublist (fuel : Nat) :
    ∀ (s : Arena) (ls L : List Nat), preoList fuel s ls = some L →
      ls.Sublist L := by
  induction fuel with
  | zero => intro s ls L h; simp [preoList] at h
  | succ fuel ih =>
    intro s ls L h
    cases ls with
    | nil => rw [preoList_succ_nil] at h; cases h; exact List.Sublist.refl []
    | cons c rest =>
      rw [preoList_succ_cons] at h
      cases hpa : preo fuel s c with
      | none => rw [hpa] at h; cases h
      | some a =>
        rw [hpa] at h
        cases hpb : preoList fuel s rest with
        | none => rw [hpb] at h; cases h
        | some b =>
          rw [hpb] at h
          cases h
          obtain ⟨a2, rfl⟩ := preo_head fuel s c a hpa
          exact List.Sublist.cons₂ c
            ((ih s rest b hpb).trans (List.sublist_append_right a2 b))

/-- The pre-order of a list of leaves is the list itself. -/
theorem preoList_leaves (fuel : Nat) :
    ∀ (s : Arena) (ls L : List Nat),
      (∀ c ∈ ls, (Arena.get s c).children = []) →
      preoList fuel s ls = some L → L = ls := by
  induction fuel with
  | zero => intro s ls L hlv h; simp [preoList] at h
  | succ fuel ih =>
    intro s ls L hlv h
    cases ls with
    | nil => rw [preoList_succ_nil] at h; cases h; rfl
    | cons c rest =>
      rw [preoList_succ_cons] at h
      cases hpa : preo fuel s c with
      | none => rw [hpa] at h; cases h
      | some a =>
        rw [hpa] at h
        cases hpb : preoList fuel s rest with
        | none => rw [hpb] at h; cases h
        | some b =>
          rw [hpb] at h
          cases h
          have ha : a = [c] := by
            cases fuel with
            | zero => rw [preo_zero] at hpa; cases hpa
            | succ fuel' =>
              rw [preo_succ, hlv c (List.mem_cons_self c rest)] at hpa
              cases fuel' with
              | zero => simp [preoList] at hpa
              | succ fuel'' =>
                rw [preoList_succ_nil] at hpa
                cases hpa
                rfl
          have hb : b = rest :=
            ih s rest b (fun x hx => hlv x (List.mem_cons_of_mem c hx)) hpb
          rw [ha, hb]
          rfl

/-- The pre-order readout only looks at the arena through `Arena.get`. -/
theorem preo_congr (t u : Arena) (hg : GetEq t u) (fuel : Nat) :
    (∀ n, preo fuel t n = preo fuel u n) ∧
    (∀ ls, preoList fuel t ls = preoList fuel u ls) := by
  induction fuel with
  | zero => exact ⟨fun n => rfl, fun ls => by simp [preoList]⟩
  | succ fuel ih =>
    constructor
    · intro n
      rw [preo_succ, preo_succ, hg n, ih.2]
    · intro ls
      cases ls with
      | nil => rfl
      | cons c rest => rw [preoList_succ_cons, preoList_succ_cons, ih.1, ih.2]

/-- Unfolding equation for `collapse_text` at zero fuel. -/
theorem collapse_text_zero (s : Arena) (n : Nat) :
    collapse_text 0 s n = none := rfl

/-- Unfolding equation for `collapse_text` at positive fuel. -/
theorem collapse_text_succ (fuel : Nat) (s : Arena) (n : Nat) :
    collapse_text (fuel + 1) s n =
      collapse_list fuel
        (Arena.set (collapse_merge s (Arena.get s n).children).1 n
          ⟨(Arena.get (collapse_merge s (Arena.get s n).children).1 n).isText,
           (Arena.get (collapse_merge s (Arena.get s n).children).1 n).text,
           (collapse_merge s (Arena.get s n).children).2⟩)
        (collapse_merge s (Arena.get s n).children).2 := rfl

/-- Unfolding equation for `collapse_list` at zero fuel. -/
theorem collapse_list_zero (s : Arena) (l : List Nat) :
    collapse_list 0 s l = none := rfl

/-- Unfolding equation for `collapse_list` at positive fuel, empty list. -/
theorem collapse_list_succ_nil (fuel : Nat) (s : Arena) :
    collapse_list (fuel + 1) s [] = some s := rfl

/-- Unfolding equation for `collapse_list` at positive fuel, nonempty list. -/
theorem collapse_list_succ_cons (fuel : Nat) (s : Arena) (c : Nat)
    (rest : List Nat) :
    collapse_list (fuel + 1) s (c :: rest) =
      match collapse_text fuel s c with
      | some s1 => collapse_list fuel s1 rest
      | none => none := rfl

/-- The collapse pass is monotone in fuel. -/
theorem collapse_mono (fuel : Nat) :
    (∀ (s : Arena) (n : Nat) (t' : Arena),
      collapse_text fuel s n = some t' → collapse_text (fuel + 1) s n = some t') ∧
    (∀ (s : Arena) (ls : List Nat) (t' : Arena),
      collapse_list fuel s ls = some t' → collapse_list (fuel + 1) s ls = some t') := by
  induction fuel with
  | zero =>
    constructor
    · intro s n t' h; rw [collapse_text_zero] at h; cases h
    · intro s ls t' h; rw [collapse_list_zero] at h; cases h
  | succ fuel ih =>
    constructor
    · intro s n t' h
      rw [collapse_text_succ] at h
      rw [collapse_text_succ]
      exact ih.2 _ _ t' h
    · intro s ls t' h
      cases ls with
      | nil => rw [collapse_list_succ_nil] at h; cases h; rw [collapse_list_succ_nil]
      | cons c rest =>
        rw [collapse_list_succ_cons] at h
        cases hc : collapse_text fuel s c with
        | none => rw [hc] at h; cases h
        | some s1 =>
          rw [hc] at h
          rw [collapse_list_succ_cons, ih.1 s c s1 hc]
          exact ih.2 s1 rest t' h

/-! ## Characterization of the run-merging step -/

/-- Unfolding equation for `mergeIds`, nonempty list. -/
theorem mergeIds_cons (s : Arena) (c : Nat) (rest : List Nat) :
    mergeIds s (c :: rest) =
      match mergeIds s rest with
      | c2 :: rest2 =>
        if (Arena.get s c).isText && (Arena.get s c2).isText then c :: rest2
        else c :: c2 :: rest2
      | [] => [c] := rfl

/-- Unfolding equation for `mergedEntries`, nonempty list. -/
theorem mergedEntries_cons (s : Arena) (c : Nat) (rest : List Nat) :
    mergedEntries s (c :: rest) =
      match mergedEntries s rest with
      | (c2, t2) :: rest2 =>
        if (Arena.get s c).isText && (Arena.get s c2).isText then
          (c, (Arena.get s c).text ++ t2) :: rest2
        else (c, (Arena.get s c).text) :: (c2, t2) :: rest2
      | [] => [(c, (Arena.get s c).text)] := rfl

/-- Unfolding equation for `collapse_merge`, nonempty list. -/
theorem collapse_merge_cons (t : Arena) (c : Nat) (rest : List Nat) :
    collapse_merge t (c :: rest) =
      match collapse_merge t rest with
      | (s1, c2 :: rest2) =>
        if (Arena.get s1 c).isText && (Arena.get s1 c2).isText then
          (Arena.set s1 c ⟨true, (Arena.get s1 c).text ++ (Arena.get s1 c2).text, []⟩,
            c :: rest2)
        else
          (s1, c :: c2 :: rest2)
      | (s1, []) => (s1, [c]) := rfl

/-- The surviving ids form a sublist of the original children list. -/
theorem mergeIds_sublist (s : Arena) : ∀ l : List Nat, (mergeIds s l).Sublist l := by
  intro l
  induction l with
  | nil => exact List.Sublist.refl []
  | cons c rest ih =>
    rw [mergeIds_cons]
    cases hm : mergeIds s rest with
    | nil => exact List.Sublist.cons₂ c (List.nil_sublist rest)
    | cons c2 rest2 =>
      rw [hm] at ih
      dsimp only
      by_cases hb : ((Arena.get s c).isText && (Arena.get s c2).isText) = true
      · rw [if_pos hb]
        exact List.Sublist.cons₂ c (List.sublist_of_cons_sublist ih)
      · rw [if_neg hb]
        exact List.Sublist.cons₂ c ih

/-- An id of the children list that does not survive the merge was a Text
node (it has been absorbed into the head of its run). -/
theorem mergeIds_absorbed (s : Arena) :
    ∀ l : List Nat, ∀ c ∈ l, c ∉ mergeIds s l → (Arena.get s c).isText = true := by
  intro l
  induction l with
  | nil => intro c hc; cases hc
  | cons c0 rest ih =>
    intro c hc hnm
    rw [mergeIds_cons] at hnm
    rcases List.mem_cons.mp hc with hceq | hc
    · subst hceq
      exfalso
      apply hnm
      cases hm : mergeIds s rest with
      | nil => exact List.mem_singleton.mpr rfl
      | cons c2 rest2 =>
        dsimp only
        by_cases hb : ((Arena.get s c).isText && (Arena.get s c2).isText) = true
        · rw [if_pos hb]; exact List.mem_cons_self ..
        · rw [if_neg hb]; exact List.mem_cons_self ..
    · cases hm : mergeIds s rest with
      | nil => exact ih c hc (by rw [hm]; simp)
      | cons c2 rest2 =>
        rw [hm] at hnm
        dsimp only at hnm
        by_cases hb : ((Arena.get s c0).isText && (Arena.get s c2).isText) = true
        · rw [if_pos hb] at hnm
          by_cases hcc2 : c = c2
          · subst hcc2
            exact (Bool.and_eq_true .. |>.mp hb).2
          · refine ih c hc ?_
            rw [hm]
            intro hmem
            rcases List.mem_cons.mp hmem with h | h
            · exact hcc2 h
            · exact hnm (List.mem_cons_of_mem c0 h)
        · rw [if_neg hb] at hnm
          refine ih c hc ?_
          rw [hm]
          intro hmem
          exact hnm (List.mem_cons_of_mem c0 hmem)

/-- The first components of `mergedEntries` are exactly `mergeIds`. -/
theorem mergedEntries_fst (s : Arena) :
    ∀ l : List Nat, (mergedEntries s l).map Prod.fst = mergeIds s l := by
  intro l
  induction l with
  | nil => rfl
  | cons c rest ih =>
    cases hm : mergedEntries s rest with
    | nil =>
      have hmi : mergeIds s rest = [] := by rw [← ih, hm]; rfl
      rw [mergedEntries_cons, mergeIds_cons, hm, hmi]
      rfl
    | cons p rest2 =>
      obtain ⟨c2, t2⟩ := p
      have hmi : mergeIds s rest = c2 :: rest2.map Prod.fst := by
        rw [← ih, hm]
        rfl
      rw [mergedEntries_cons, mergeIds_cons, hm, hmi]
      dsimp only
      by_cases hb : ((Arena.get s c).isText && (Arena.get s c2).isText) = true
      · rw [if_pos hb, if_pos hb]
        rfl
      · rw [if_neg hb, if_neg hb]
        rfl

/-- A nonempty all-Text children list merges into its first id, carrying the
concatenation of all payloads in document order. -/
theorem mergedEntries_allText (s : Arena) :
    ∀ (rest0 : List Nat) (c0 : Nat),
      (∀ c ∈ c0 :: rest0, (Arena.get s c).isText = true) →
      mergedEntries s (c0 :: rest0) = [(c0, joinTexts s (c0 :: rest0))] := by
  intro rest0
  induction rest0 with
  | nil =>
    intro c0 h
    rw [mergedEntries_cons]
    show [(c0, (Arena.get s c0).text)] = [(c0, joinTexts s [c0])]
    rw [joinTexts]
    rw [joinTexts]
    simp
  | cons c1 rest1 ih =>
    intro c0 h
    rw [mergedEntries_cons, ih c1 (fun c hc => h c (List.mem_cons_of_mem c0 hc))]
    dsimp only
    rw [if_pos]
    · rw [joinTexts]
      rfl
    · rw [Bool.and_eq_true]
      exact ⟨h c0 (List.mem_cons_self ..), h c1 (by simp)⟩

/-- A nonempty all-Text children list merges into exactly its first id. -/
theorem mergeIds_allText (s : Arena) (rest0 : List Nat) (c0 : Nat)
    (h : ∀ c ∈ c0 :: rest0, (Arena.get s c).isText = true) :
    mergeIds s (c0 :: rest0) = [c0] := by
  rw [← mergedEntries_fst, mergedEntries_allText s rest0 c0 h]
  rfl

/-- Characterization of `collapse_merge` on a duplicate-free children list
whose entries agree with the reference arena `s` on kind and payload and
whose Text members are leaves: the surviving list is `mergeIds`, nothing
outside the list is touched, kinds are taken from `s` and children lists are
untouched for all members, and every surviving id carries its
`mergedEntries` payload. -/
theorem collapse_merge_spec (s : Arena) :
    ∀ (l : List Nat) (t : Arena),
      l.Nodup →
      (∀ m ∈ l, (Arena.get t m).isText = (Arena.get s m).isText ∧
        (Arena.get t m).text = (Arena.get s m).text) →
      (∀ m ∈ l, (Arena.get s m).isText = true → (Arena.get t m).children = []) →
      (collapse_merge t l).2 = mergeIds s l ∧
      (∀ m, m ∉ l → Arena.get (collapse_merge t l).1 m = Arena.get t m) ∧
      (∀ m ∈ l, (Arena.get (collapse_merge t l).1 m).isText = (Arena.get s m).isText ∧
        (Arena.get (collapse_merge t l).1 m).children = (Arena.get t m).children) ∧
      (∀ ce ∈ mergedEntries s l,
        Arena.get (collapse_merge t l).1 ce.1 =
          ⟨(Arena.get s ce.1).isText, ce.2, (Arena.get t ce.1).children⟩) := by
  intro l
  induction l with
  | nil =>
    intro t _ _ _
    refine ⟨rfl, fun m _ => rfl, by simp, ?_⟩
    intro ce hce
    simp [mergedEntries] at hce
  | cons c rest ih =>
    intro t hnd hagree hleaf
    have hcr : c ∉ rest := (List.nodup_cons.mp hnd).1
    have hndr : rest.Nodup := (List.nodup_cons.mp hnd).2
    have hagc := hagree c (List.mem_cons_self ..)
    obtain ⟨hm2, hframe, hitch, hent⟩ := ih t hndr
      (fun m hm => hagree m (List.mem_cons_of_mem c hm))
      (fun m hm => hleaf m (List.mem_cons_of_mem c hm))
    rcases hcm : collapse_merge t rest with ⟨s1, M⟩
    rw [hcm] at hm2 hframe hitch hent
    dsimp only at hm2 hframe hitch hent
    have hgc : Arena.get s1 c = Arena.get t c := hframe c hcr
    have hetat : Arena.get t c =
        (⟨(Arena.get s c).isText, (Arena.get s c).text,
          (Arena.get t c).children⟩ : NodeData) := by
      rw [← hagc.1, ← hagc.2]
    cases M with
    | nil =>
      have hmi0 : mergeIds s rest = [] := hm2.symm
      have hme0 : mergedEntries s rest = [] := by
        have := mergedEntries_fst s rest
        rw [hmi0] at this
        exact List.map_eq_nil_iff.mp this
      have hstep : collapse_merge t (c :: rest) = (s1, [c]) := by
        rw [collapse_merge_cons, hcm]
      rw [hstep]
      refine ⟨?_, ?_, ?_, ?_⟩
      · rw [mergeIds_cons, hmi0]
      · intro m hm
        exact hframe m (fun hmr => hm (List.mem_cons_of_mem c hmr))
      · intro m hm
        rcases List.mem_cons.mp hm with hceq | hm
        · subst hceq
          rw [hgc, hagc.1]
          exact ⟨rfl, rfl⟩
        · exact hitch m hm
      · intro ce hce
        rw [mergedEntries_cons, hme0] at hce
        dsimp only at hce
        rcases List.mem_singleton.mp hce with rfl
        rw [hgc]
        exact hetat
    | cons c2 rest2 =>
      have hmi : mergeIds s rest = c2 :: rest2 := hm2.symm
      have hc2rest : c2 ∈ rest :=
        (mergeIds_sublist s rest).subset (by rw [hmi]; exact List.mem_cons_self ..)
      have hcc2 : c ≠ c2 := fun h => hcr (h ▸ hc2rest)
      obtain ⟨t2, rest2', hme, hrest2fst⟩ :
          ∃ t2 rest2', mergedEntries s rest = (c2, t2) :: rest2' ∧
            rest2'.map Prod.fst = rest2 := by
        have h1 := mergedEntries_fst s rest
        rw [hmi] at h1
        cases hmm : mergedEntries s rest with
        | nil => rw [hmm] at h1; cases h1
        | cons p rest2' =>
          obtain ⟨c2', t2⟩ := p
          rw [hmm, List.map_cons] at h1
          injection h1 with ha hb
          refine ⟨t2, rest2', ?_, hb⟩
          dsimp only at ha
          rw [ha]
      have hentc2 := hent (c2, t2) (by rw [hme]; exact List.mem_cons_self ..)
      have hit1 : (Arena.get s1 c).isText = (Arena.get s c).isText := by
        rw [hgc, hagc.1]
      have hit2 : (Arena.get s1 c2).isText = (Arena.get s c2).isText := by
        rw [hentc2]
      by_cases hb : ((Arena.get s c).isText && (Arena.get s c2).isText) = true
      · -- the head of the tail run is absorbed into c
        have hb1 : ((Arena.get s1 c).isText && (Arena.get s1 c2).isText) = true := by
          rw [hit1, hit2]; exact hb
        have hstep : collapse_merge t (c :: rest) =
            (Arena.set s1 c ⟨true,
              (Arena.get s1 c).text ++ (Arena.get s1 c2).text, []⟩, c :: rest2) := by
          rw [collapse_merge_cons, hcm]
          dsimp only
          rw [if_pos hb1]
        have htexts : (Arena.get s1 c).text ++ (Arena.get s1 c2).text =
            (Arena.get s c).text ++ t2 := by
          rw [hgc, hagc.2, hentc2]
        have hcText : (Arena.get s c).isText = true := (Bool.and_eq_true .. |>.mp hb).1
        have hchc : (Arena.get t c).children = [] :=
          hleaf c (List.mem_cons_self ..) hcText
        rw [hstep]
        refine ⟨?_, ?_, ?_, ?_⟩
        · rw [mergeIds_cons, hmi]
          dsimp only
          rw [if_pos hb]
        · intro m hm
          have hmc : m ≠ c := fun h => hm (h ▸ List.mem_cons_self ..)
          rw [Arena.get_set, if_neg (fun h => hmc h.symm)]
          exact hframe m (fun hmr => hm (List.mem_cons_of_mem c hmr))
        · intro m hm
          rcases List.mem_cons.mp hm with hceq | hm
          · subst hceq
            rw [Arena.get_set, if_pos rfl]
            exact ⟨by rw [hcText], by rw [hchc]⟩
          · have hmc : m ≠ c := fun h => hcr (h ▸ hm)
            rw [Arena.get_set, if_neg (fun h => hmc h.symm)]
            exact hitch m hm
        · intro ce hce
          rw [mergedEntries_cons, hme] at hce
          dsimp only at hce
          rw [if_pos hb] at hce
          rcases List.mem_cons.mp hce with hceq | hce
          · subst hceq
            rw [Arena.get_set, if_pos rfl, htexts]
            dsimp only
            rw [hcText, hchc]
          · have hce1rest2 : ce.1 ∈ rest2 := by
              rw [← hrest2fst]
              exact List.mem_map_of_mem Prod.fst hce
            have hce1rest : ce.1 ∈ rest := (mergeIds_sublist s rest).subset
              (by rw [hmi]; exact List.mem_cons_of_mem c2 hce1rest2)
            have hmc : ce.1 ≠ c := fun h => hcr (h ▸ hce1rest)
            rw [Arena.get_set, if_neg (fun h => hmc h.symm)]
            exact hent ce (by rw [hme]; exact List.mem_cons_of_mem _ hce)
      · -- no merge at the head
        have hb1 : ¬((Arena.get s1 c).isText && (Arena.get s1 c2).isText) = true := by
          rw [hit1, hit2]; exact hb
        have hstep : collapse_merge t (c :: rest) = (s1, c :: c2 :: rest2) := by
          rw [collapse_merge_cons, hcm]
          dsimp only
          rw [if_neg hb1]
        rw [hstep]
        refine ⟨?_, ?_, ?_, ?_⟩
        · rw [mergeIds_cons, hmi]
          dsimp only
          rw [if_neg hb]
        · intro m hm
          exact hframe m (fun hmr => hm (List.mem_cons_of_mem c hmr))
        · intro m hm
          rcases List.mem_cons.mp hm with hceq | hm
          · subst hceq
            rw [hgc, hagc.1]
            exact ⟨rfl, rfl⟩
          · exact hitch m hm
        · intro ce hce
          rw [mergedEntries_cons, hme] at hce
          dsimp only at hce
          rw [if_neg hb] at hce
          rcases List.mem_cons.mp hce with hceq | hce
          · subst hceq
            rw [hgc]
            exact hetat
          · exact hent ce (by rw [hme]; exact hce)

/-- The pre-order readout of a leaf is just the leaf. -/
theorem preo_leaf (fuel : Nat) (s : Arena) (x : Nat) (a : List Nat)
    (h : preo fuel s x = some a) (hlf : (Arena.get s x).children = []) :
    a = [x] := by
  cases fuel with
  | zero => rw [preo_zero] at h; cases h
  | succ fuel =>
    rw [preo_succ, hlf] at h
    cases fuel with
    | zero => simp [preoList] at h
    | succ fuel' =>
      rw [preoList_succ_nil] at h
      cases h
      rfl

/-- Characterization of the collapse pass on a well-formed tree.  The node
statement: starting from any arena `t` that agrees with the reference arena
`s` on kinds and children everywhere in the subtree readout `l` of `n` and
on payloads everywhere except possibly at `n` itself, the pass succeeds and
produces an arena in which nothing outside `l` changed, no node changed its
kind, `n` kept its payload, every subtree node's children list is the merged
image of its original children, and every all-Text parent of the subtree has
been collapsed to a single Text child carrying the concatenated payload.
The list statement is the analogous invariant for the recursion into a
merged (hence sublist) children list, where skipped children are exactly
absorbed Text leaves. -/
theorem collapse_spec (s : Arena) (fuel : Nat) :
    (∀ (n : Nat) (t : Arena) (l : List Nat),
      preo fuel s n = some l → l.Nodup → TextLeaves s l →
      (∀ m ∈ l, (Arena.get t m).isText = (Arena.get s m).isText ∧
        (Arena.get t m).children = (Arena.get s m).children) →
      (∀ m ∈ l, m ≠ n → (Arena.get t m).text = (Arena.get s m).text) →
      ∃ t', collapse_text fuel t n = some t' ∧
        (∀ m, m ∉ l → Arena.get t' m = Arena.get t m) ∧
        (∀ m, (Arena.get t' m).isText = (Arena.get t m).isText) ∧
        ((Arena.get t' n).text = (Arena.get t n).text) ∧
        (∀ m ∈ l, (Arena.get t' m).children = mergeIds s (Arena.get s m).children) ∧
        (∀ p ∈ l, CollapsedParent s t' p)) ∧
    (∀ (ls' ls : List Nat) (t : Arena) (L : List Nat),
      ls'.Sublist ls → preoList fuel s ls = some L → L.Nodup → TextLeaves s L →
      (∀ c ∈ ls, c ∉ ls' → (Arena.get s c).isText = true) →
      (∀ m ∈ L, (Arena.get t m).isText = (Arena.get s m).isText ∧
        (Arena.get t m).children = (Arena.get s m).children) →
      (∀ m ∈ L, m ∉ ls → (Arena.get t m).text = (Arena.get s m).text) →
      ∃ t', collapse_list fuel t ls' = some t' ∧
        (∀ m, m ∉ L → Arena.get t' m = Arena.get t m) ∧
        (∀ m, (Arena.get t' m).isText = (Arena.get t m).isText) ∧
        (∀ c ∈ ls', (Arena.get t' c).text = (Arena.get t c).text) ∧
        (∀ m ∈ L, (Arena.get t' m).children = mergeIds s (Arena.get s m).children) ∧
        (∀ p ∈ L, CollapsedParent s t' p)) := by
  induction fuel with
  | zero =>
    constructor
    · intro n t l hp
      rw [preo_zero] at hp
      cases hp
    · intro ls' ls t L hsub hp
      simp [preoList] at hp
  | succ fuel ih =>
    constructor
    · -- node statement
      intro n t l hp hnd htl hITch htext
      rw [preo_succ] at hp
      cases hl2 : preoList fuel s (Arena.get s n).children with
      | none => rw [hl2] at hp; cases hp
      | some l2 =>
        rw [hl2] at hp
        cases hp
        have hnl2 : n ∉ l2 := (List.nodup_cons.mp hnd).1
        have hndl2 : l2.Nodup := (List.nodup_cons.mp hnd).2
        have hchl2 : ∀ c ∈ (Arena.get s n).children, c ∈ l2 :=
          (preo_closure fuel).2 s _ l2 hl2 |>.1
        have hchl : ∀ c ∈ (Arena.get s n).children, c ∈ n :: l2 :=
          fun c hc => List.mem_cons_of_mem n (hchl2 c hc)
        have hnch : n ∉ (Arena.get s n).children := fun h => hnl2 (hchl2 n h)
        have hndch : (Arena.get s n).children.Nodup :=
          (preoList_heads_sublist fuel s _ l2 hl2).nodup hndl2
        obtain ⟨hm2, hframe2, hitch2, hent2⟩ :=
          collapse_merge_spec s (Arena.get s n).children t hndch
            (fun m hm => ⟨(hITch m (hchl m hm)).1,
              htext m (hchl m hm) (fun h => hnl2 (h ▸ hchl2 m hm))⟩)
            (fun m hm hitm => by
              rw [(hITch m (hchl m hm)).2]
              exact htl m (hchl m hm) hitm)
        have hfrn : Arena.get (collapse_merge t (Arena.get s n).children).1 n =
            Arena.get t n := hframe2 n hnch
        have hchn : (Arena.get t n).children = (Arena.get s n).children :=
          (hITch n (List.mem_cons_self ..)).2
        have hstep : collapse_text (fuel + 1) t n =
            collapse_list fuel
              (Arena.set (collapse_merge t (Arena.get s n).children).1 n
                ⟨(Arena.get t n).isText, (Arena.get t n).text,
                 mergeIds s (Arena.get s n).children⟩)
              (mergeIds s (Arena.get s n).children) := by
          rw [collapse_text_succ, hchn, hfrn, hm2]
        obtain ⟨t', hrun', hframe', hIT', htops', hallch', htgt'⟩ :=
          ih.2 (mergeIds s (Arena.get s n).children) (Arena.get s n).children
            (Arena.set (collapse_merge t (Arena.get s n).children).1 n
              ⟨(Arena.get t n).isText, (Arena.get t n).text,
               mergeIds s (Arena.get s n).children⟩) l2
            (mergeIds_sublist s _) hl2 hndl2
            (fun m hm => htl m (List.mem_cons_of_mem n hm))
            (fun c hc hnc => mergeIds_absorbed s _ c hc hnc)
            (fun m hm => by
              have hmn : m ≠ n := fun h => hnl2 (h ▸ hm)
              rw [Arena.get_set, if_neg (fun h => hmn h.symm)]
              by_cases hmch : m ∈ (Arena.get s n).children
              · exact ⟨(hitch2 m hmch).1, by
                  rw [(hitch2 m hmch).2]
                  exact (hITch m (List.mem_cons_of_mem n hm)).2⟩
              · rw [hframe2 m hmch]
                exact hITch m (List.mem_cons_of_mem n hm))
            (fun m hm hmch => by
              have hmn : m ≠ n := fun h => hnl2 (h ▸ hm)
              rw [Arena.get_set, if_neg (fun h => hmn h.symm), hframe2 m hmch]
              exact htext m (List.mem_cons_of_mem n hm) hmn)
        refine ⟨t', by rw [hstep]; exact hrun', ?_, ?_, ?_, ?_, ?_⟩
        · -- frame
          intro m hm
          have hmn : m ≠ n := fun h => hm (h ▸ List.mem_cons_self ..)
          have hml2 : m ∉ l2 := fun h => hm (List.mem_cons_of_mem n h)
          have hmch : m ∉ (Arena.get s n).children := fun h => hml2 (hchl2 m h)
          rw [hframe' m hml2, Arena.get_set, if_neg (fun h => hmn h.symm),
            hframe2 m hmch]
        · -- global kind preservation
          intro m
          rw [hIT' m, Arena.get_set]
          by_cases hmn : n = m
          · subst hmn
            rw [if_pos rfl]
          · rw [if_neg hmn]
            by_cases hmch : m ∈ (Arena.get s n).children
            · rw [(hitch2 m hmch).1, (hITch m (hchl m hmch)).1]
            · rw [hframe2 m hmch]
        · -- payload of the node itself is untouched
          rw [hframe' n hnl2, Arena.get_set, if_pos rfl]
        · -- children of every subtree node are the merged image
          intro m hm
          rcases List.mem_cons.mp hm with hmn | hm2'
          · subst hmn
            rw [hframe' m hnl2, Arena.get_set, if_pos rfl]
          · exact hallch' m hm2'
        · -- every all-Text parent in the subtree is collapsed
          intro p hp
          rcases List.mem_cons.mp hp with hpn | hp2
          · subst hpn
            intro c0 rest0 hpF hpch hall
            have hcs : mergeIds s (Arena.get s p).children = [c0] := by
              rw [hpch]
              exact mergeIds_allText s rest0 c0 hall
            have hc0ch : c0 ∈ (Arena.get s p).children := by
              rw [hpch]; exact List.mem_cons_self ..
            have hc0l2 : c0 ∈ l2 := hchl2 c0 hc0ch
            have hc0n : c0 ≠ p := fun h => hnl2 (h ▸ hc0l2)
            have hme : mergedEntries s (Arena.get s p).children =
                [(c0, joinTexts s (c0 :: rest0))] := by
              rw [hpch]
              exact mergedEntries_allText s rest0 c0 hall
            have hc0text : (Arena.get s c0).isText = true :=
              hall c0 (List.mem_cons_self ..)
            have hentc0 := hent2 (c0, joinTexts s (c0 :: rest0))
              (by rw [hme]; exact List.mem_cons_self ..)
            have hchc0 : (Arena.get t c0).children = [] := by
              rw [(hITch c0 (List.mem_cons_of_mem p hc0l2)).2]
              exact htl c0 (List.mem_cons_of_mem p hc0l2) hc0text
            have hgu : Arena.get
                (Arena.set (collapse_merge t (Arena.get s p).children).1 p
                  ⟨(Arena.get t p).isText, (Arena.get t p).text,
                   mergeIds s (Arena.get s p).children⟩) c0 =
                ⟨(Arena.get s c0).isText, joinTexts s (c0 :: rest0), []⟩ := by
              rw [Arena.get_set, if_neg (fun h => hc0n h.symm), hentc0, hchc0]
            refine ⟨?_, ?_, ?_⟩
            · rw [hframe' p hnl2, Arena.get_set, if_pos rfl, hcs]
            · rw [hIT' c0, hgu, hc0text]
            · rw [htops' c0 (by rw [hcs]; exact List.mem_cons_self ..), hgu]
          · exact htgt' p hp2
    · -- list statement
      intro ls' ls t L hsub hpls hnd htl hskip hITch htext
      cases ls' with
      | nil =>
        have hallText : ∀ c ∈ ls, (Arena.get s c).isText = true :=
          fun c hc => hskip c hc (List.not_mem_nil c)
        have hlsL : ∀ c ∈ ls, c ∈ L :=
          fun c hc => (preoList_heads_sublist (fuel + 1) s ls L hpls).subset hc
        have hleaves : ∀ c ∈ ls, (Arena.get s c).children = [] :=
          fun c hc => htl c (hlsL c hc) (hallText c hc)
        have hLls : L = ls := preoList_leaves (fuel + 1) s ls L hleaves hpls
        refine ⟨t, collapse_list_succ_nil .., fun m _ => rfl, fun m => rfl,
          by simp, ?_, ?_⟩
        · intro m hm
          rw [(hITch m hm).2]
          rw [hLls] at hm
          rw [hleaves m hm]
          rfl
        · intro p hp
          intro c0 rest0 hpF hpch hall
          rw [hLls] at hp
          rw [hallText p hp] at hpF
          cases hpF
      | cons c rest' =>
        cases ls with
        | nil =>
          exact absurd (List.eq_nil_of_sublist_nil hsub) (by simp)
        | cons x rest =>
          rw [preoList_succ_cons] at hpls
          cases hpa : preo fuel s x with
          | none => rw [hpa] at hpls; cases hpls
          | some a =>
            rw [hpa] at hpls
            cases hpb : preoList fuel s rest with
            | none => rw [hpb] at hpls; cases hpls
            | some b =>
              rw [hpb] at hpls
              cases hpls
              obtain ⟨hnda, hndb, hdisj⟩ := List.nodup_append.mp hnd
              have hxa : x ∈ a := ((preo_closure fuel).1 s x a hpa).1
              have hrestb : ∀ y ∈ rest, y ∈ b :=
                fun y hy => (preoList_heads_sublist fuel s rest b hpb).subset hy
              have htla : TextLeaves s a :=
                fun m hm => htl m (List.mem_append_left b hm)
              have htlb : TextLeaves s b :=
                fun m hm => htl m (List.mem_append_right a hm)
              cases hsub with
              | cons hdummy =>
                -- the head x of the children list was absorbed: skip it
                rename_i hsubr'
                have hxnotls' : x ∉ c :: rest' := by
                  intro hx
                  have hxrest : x ∈ rest := hsubr'.subset hx
                  exact hdisj hxa (hrestb x hxrest)
                have hxText : (Arena.get s x).isText = true :=
                  hskip x (List.mem_cons_self ..) hxnotls'
                have hxleaf : (Arena.get s x).children = [] :=
                  htl x (List.mem_append_left b hxa) hxText
                have hax : a = [x] := preo_leaf fuel s x a hpa hxleaf
                obtain ⟨t', hrun', hframe', hIT', htops', hallch', htgt'⟩ :=
                  ih.2 (c :: rest') rest t b hsubr' hpb hndb htlb
                    (fun y hy hny => hskip y (List.mem_cons_of_mem x hy) hny)
                    (fun m hm => hITch m (List.mem_append_right a hm))
                    (fun m hm hmls => htext m (List.mem_append_right a hm)
                      (fun hmx => by
                        rcases List.mem_cons.mp hmx with hmx | hmx
                        · exact hdisj (hmx ▸ hxa) hm
                        · exact hmls hmx))
                refine ⟨t', (collapse_mono fuel).2 t _ t' hrun', ?_, hIT', ?_, ?_, ?_⟩
                · intro m hm
                  exact hframe' m (fun h => hm (List.mem_append_right a h))
                · exact htops'
                · intro m hm
                  rcases List.mem_append.mp hm with hma | hmb
                  · rw [hax] at hma
                    rcases List.mem_singleton.mp hma with rfl
                    rw [hframe' m (fun h => hdisj hxa h), (hITch m hm).2,
                      hxleaf]
                    rfl
                  · exact hallch' m hmb
                · intro p hp
                  rcases List.mem_append.mp hp with hpa' | hpb'
                  · rw [hax] at hpa'
                    rcases List.mem_singleton.mp hpa' with rfl
                    intro c0 rest0 hpF hpch hall
                    rw [hxText] at hpF
                    cases hpF
                  · exact htgt' p hpb'
              | cons₂ hdummy =>
                -- the head x = c of the children list survived: recurse into it
                rename_i hsubr'
                obtain ⟨t1, hrun1, hframe1, hIT1, htext1, hallch1, htgt1⟩ :=
                  ih.1 c t a hpa hnda htla
                    (fun m hm => hITch m (List.mem_append_left b hm))
                    (fun m hm hmc => htext m (List.mem_append_left b hm)
                      (fun hmls => by
                        rcases List.mem_cons.mp hmls with h | h
                        · exact hmc h
                        · exact hdisj hm (hrestb m h)))
                obtain ⟨t2, hrun2, hframe2L, hIT2, htops2, hallch2, htgt2⟩ :=
                  ih.2 rest' rest t1 b hsubr' hpb hndb htlb
                    (fun y hy hny => hskip y (List.mem_cons_of_mem c hy)
                      (fun hmem => by
                        rcases List.mem_cons.mp hmem with h | h
                        · exact hdisj (h ▸ hxa) (hrestb y hy)
                        · exact hny h))
                    (fun m hm => by
                      rw [hframe1 m (fun h => hdisj h hm)]
                      exact hITch m (List.mem_append_right a hm))
                    (fun m hm hmls => by
                      rw [hframe1 m (fun h => hdisj h hm)]
                      exact htext m (List.mem_append_right a hm)
                        (fun hmem => by
                          rcases List.mem_cons.mp hmem with h | h
                          · exact hdisj (h ▸ hxa) hm
                          · exact hmls h))
                have hstep : collapse_list (fuel + 1) t (c :: rest') = some t2 := by
                  rw [collapse_list_succ_cons, hrun1]
                  exact hrun2
                refine ⟨t2, hstep, ?_, ?_, ?_, ?_, ?_⟩
                · intro m hm
                  rw [hframe2L m (fun h => hm (List.mem_append_right a h)),
                    hframe1 m (fun h => hm (List.mem_append_left b h))]
                · intro m
                  rw [hIT2 m, hIT1 m]
                · intro y hy
                  rcases List.mem_cons.mp hy with rfl | hy
                  · rw [hframe2L y (fun h => hdisj hxa h), htext1]
                  · have hyb : y ∈ b := hrestb y (hsubr'.subset hy)
                    rw [htops2 y hy, hframe1 y (fun h => hdisj h hyb)]
                · intro m hm
                  rcases List.mem_append.mp hm with hma | hmb
                  · rw [hframe2L m (fun h => hdisj hma h)]
                    exact hallch1 m hma
                  · exact hallch2 m hmb
                · intro p hp
                  rcases List.mem_append.mp hp with hpa' | hpb'
                  · intro c0 rest0 hpF hpch hall
                    have hres := htgt1 p hpa' c0 rest0 hpF hpch hall
                    have hc0a : c0 ∈ a := ((preo_closure fuel).1 s c a hpa).2
                      p hpa' c0 (by rw [hpch]; exact List.mem_cons_self ..)
                    rw [hframe2L p (fun h => hdisj hpa' h),
                      hframe2L c0 (fun h => hdisj hc0a h)]
                    exact hres
                  · exact htgt2 p hpb'

/-- C2: for every parent node whose children are all Text nodes (at least
one) when the collapse pass that ends the default
`ITextPreprocessor.preprocess` begins (arena `s`, the post-traversal state),
after `preprocess` completes the parent has exactly one Text child - the
first original child - and its payload is the concatenation, in original
child order, of the payloads the children held when the collapse pass began.
Hypotheses: the post-traversal tree has a duplicate-free pre-order readout
(it is a proper tree) and its Text nodes are leaves, as the spec's data
model requires; the parent itself is not a Text node (per the spec, a Text
node is a leaf and so is never a parent). -/
theorem c2_all_text_children_collapse (pt : Pt) (fuel root : Nat)
    (s0 s s'' : Arena) (vs cs ns : List Nat) (p c0 : Nat) (rest0 : List Nat)
    (hrun : recursion pt fuel root s0 [] [] = .ok s vs cs)
    (hpre : preprocess pt fuel root s0 = .ok s'' vs cs)
    (hns : preo fuel s root = some ns) (hnd : ns.Nodup) (htl : TextLeaves s ns)
    (hp : p ∈ ns) (hpF : (Arena.get s p).isText = false)
    (hch : (Arena.get s p).children = c0 :: rest0)
    (hall : ∀ c ∈ c0 :: rest0, (Arena.get s c).isText = true) :
    (Arena.get s'' p).children = [c0] ∧
    (Arena.get s'' c0).isText = true ∧
    (Arena.get s'' c0).text = joinTexts s (c0 :: rest0) := by
  have hcol : collapse_text fuel s root = some s'' := by
    unfold preprocess at hpre
    rw [hrun] at hpre
    dsimp only at hpre
    cases hc : collapse_text fuel s root with
    | some s2 =>
      rw [hc] at hpre
      cases hpre
      rfl
    | none => rw [hc] at hpre; cases hpre
  obtain ⟨t', hct, hframe, hIT, htext, hallch, htgt⟩ :=
    (collapse_spec s fuel).1 root s ns hns hnd htl
      (fun m hm => ⟨rfl, rfl⟩) (fun m hm hmn => rfl)
  have hts : t' = s'' := by
    rw [hct] at hcol
    exact Option.some.inj hcol
  subst hts
  exact htgt p hp c0 rest0 hpF hch hall

theorem c2_all_text_children_collapse_witness :
    recursion preprocess_text_default 10 0 exTree [] [] =
      .ok exTree [0, 1, 2, 3] [1, 2, 3] ∧
    preprocess preprocess_text_default 10 0 exTree =
      .ok exTreeCollapsed [0, 1, 2, 3] [1, 2, 3] ∧
    preo 10 exTree 0 = some [0, 1, 2, 3] ∧
    (Arena.get exTree 0).isText = false ∧
    (Arena.get exTree 0).children = [1, 2, 3] ∧
    (Arena.get exTreeCollapsed 0).children = [1] ∧
    (Arena.get exTreeCollapsed 1).isText = true ∧
    (Arena.get exTreeCollapsed 1).text = joinTexts exTree [1, 2, 3] := by
  refine ⟨by decide, by decide, by decide, by decide, by decide, ?_⟩
  exact c2_all_text_children_collapse preprocess_text_default 10 0 exTree exTree
    exTreeCollapsed [0, 1, 2, 3] [1, 2, 3] [0, 1, 2, 3] 0 1 [2, 3]
    (by decide) (by decide) (by decide) (by decide)
    (by unfold TextLeaves; decide) (by decide) (by decide) (by decide)
    (by decide)

/-! ## The collapse pass is idempotent -/

/-- Observational equality is reflexive. -/
theorem getEq_refl (t : Arena) : GetEq t t := fun _ => rfl

/-- Observational equality composes. -/
theorem getEq_trans {t u v : Arena} (h1 : GetEq t u) (h2 : GetEq u v) :
    GetEq t v := fun i => (h1 i).trans (h2 i)

/-- Dropping the head preserves absence of adjacent Text pairs. -/
theorem noAdjText_tail (s : Arena) (c : Nat) (rest : List Nat)
    (h : noAdjText s (c :: rest)) : noAdjText s rest := by
  cases rest with
  | nil => trivial
  | cons c2 rest2 => exact h.2

/-- Absence of adjacent Text pairs only depends on node kinds. -/
theorem noAdjText_congr (s t : Arena)
    (hIT : ∀ m, (Arena.get t m).isText = (Arena.get s m).isText) :
    ∀ l, noAdjText s l → noAdjText t l := by
  intro l
  induction l with
  | nil => intro h; trivial
  | cons c rest ih =>
    intro h
    cases rest with
    | nil => trivial
    | cons c2 rest2 =>
      exact ⟨by rw [hIT c, hIT c2]; exact h.1, ih h.2⟩

/-- The merged children list has no two adjacent Text siblings. -/
theorem mergeIds_noAdj (s : Arena) : ∀ l : List Nat, noAdjText s (mergeIds s l) := by
  intro l
  induction l with
  | nil => trivial
  | cons c rest ih =>
    rw [mergeIds_cons]
    cases hm : mergeIds s rest with
    | nil => trivial
    | cons c2 rest2 =>
      rw [hm] at ih
      dsimp only
      by_cases hb : ((Arena.get s c).isText && (Arena.get s c2).isText) = true
      · rw [if_pos hb]
        cases rest2 with
        | nil => trivial
        | cons r rest3 =>
          refine ⟨?_, ih.2⟩
          intro ⟨hct, hrt⟩
          have hc2t : (Arena.get s c2).isText = true := (Bool.and_eq_true .. |>.mp hb).2
          exact ih.1 ⟨hc2t, hrt⟩
      · rw [if_neg hb]
        refine ⟨?_, ih⟩
        intro ⟨hct, hc2t⟩
        exact hb (by rw [Bool.and_eq_true]; exact ⟨hct, hc2t⟩)

/-- On a children list with no adjacent Text siblings the merging step does
nothing at all. -/
theorem collapse_merge_noAdj (t : Arena) :
    ∀ l : List Nat, noAdjText t l → collapse_merge t l = (t, l) := by
  intro l
  induction l with
  | nil => intro h; rfl
  | cons c rest ih =>
    intro h
    rw [collapse_merge_cons, ih (noAdjText_tail t c rest h)]
    cases rest with
    | nil => rfl
    | cons c2 rest2 =>
      dsimp only
      rw [if_neg]
      intro hb
      exact h.1 (Bool.and_eq_true .. |>.mp hb)

/-- A collapsed arena (children lists replaced by their merged images, kinds
unchanged) still has a pre-order readout below the original one. -/
theorem preo_collapsed (s t' : Arena)
    (hIT : ∀ m, (Arena.get t' m).isText = (Arena.get s m).isText) (fuel : Nat) :
    (∀ (n : Nat) (l : List Nat), preo fuel s n = some l →
      (∀ m ∈ l, (Arena.get t' m).children = mergeIds s (Arena.get s m).children) →
      ∃ l', preo fuel t' n = some l' ∧ l'.Sublist l) ∧
    (∀ (ls' ls L : List Nat), ls'.Sublist ls → preoList fuel s ls = some L →
      (∀ m ∈ L, (Arena.get t' m).children = mergeIds s (Arena.get s m).children) →
      ∃ L', preoList fuel t' ls' = some L' ∧ L'.Sublist L) := by
  induction fuel with
  | zero =>
    constructor
    · intro n l h; rw [preo_zero] at h; cases h
    · intro ls' ls L hsub h; simp [preoList] at h
  | succ fuel ih =>
    constructor
    · intro n l hp hcoll
      rw [preo_succ] at hp
      cases hl2 : preoList fuel s (Arena.get s n).children with
      | none => rw [hl2] at hp; cases hp
      | some l2 =>
        rw [hl2] at hp
        cases hp
        obtain ⟨L', hL', hsubL'⟩ :=
          ih.2 (mergeIds s (Arena.get s n).children) (Arena.get s n).children l2
            (mergeIds_sublist s _) hl2
            (fun m hm => hcoll m (List.mem_cons_of_mem n hm))
        refine ⟨n :: L', ?_, List.Sublist.cons₂ n hsubL'⟩
        rw [preo_succ, hcoll n (List.mem_cons_self ..), hL']
    · intro ls' ls L hsub hp hcoll
      cases ls' with
      | nil =>
        cases ls with
        | nil =>
          rw [preoList_succ_nil] at hp
          cases hp
          exact ⟨[], preoList_succ_nil .., List.Sublist.refl []⟩
        | cons x rest =>
          exact ⟨[], preoList_succ_nil .., List.nil_sublist L⟩
      | cons c rest' =>
        cases ls with
        | nil => exact absurd (List.eq_nil_of_sublist_nil hsub) (by simp)
        | cons x rest =>
          rw [preoList_succ_cons] at hp
          cases hpa : preo fuel s x with
          | none => rw [hpa] at hp; cases hp
          | some a =>
            rw [hpa] at hp
            cases hpb : preoList fuel s rest with
            | none => rw [hpb] at hp; cases hp
            | some b =>
              rw [hpb] at hp
              cases hp
              cases hsub with
              | cons hdummy =>
                rename_i hsubr
                obtain ⟨L', hL', hsubL'⟩ := ih.2 (c :: rest') rest b hsubr hpb
                  (fun m hm => hcoll m (List.mem_append_right a hm))
                exact ⟨L', (preo_mono fuel).2 t' _ L' hL',
                  hsubL'.trans (List.sublist_append_right a b)⟩
              | cons₂ hdummy =>
                rename_i hsubr
                obtain ⟨a', ha', hsuba'⟩ := ih.1 c a hpa
                  (fun m hm => hcoll m (List.mem_append_left b hm))
                obtain ⟨b', hb', hsubb'⟩ := ih.2 rest' rest b hsubr hpb
                  (fun m hm => hcoll m (List.mem_append_right a hm))
                refine ⟨a' ++ b', ?_, List.Sublist.append hsuba' hsubb'⟩
                rw [preoList_succ_cons, ha', hb']

/-- The tree readout only looks at the arena through `Arena.get`. -/
theorem readTree_congr (t u : Arena) (hg : GetEq t u) (fuel : Nat) :
    (∀ n, readTree fuel t n = readTree fuel u n) ∧
    (∀ l, readTreeList fuel t l = readTreeList fuel u l) := by
  induction fuel with
  | zero => exact ⟨fun n => rfl, fun l => by simp [readTreeList]⟩
  | succ fuel ih =>
    constructor
    · intro n
      rw [readTree, readTree, hg n, ih.2]
    · intro l
      cases l with
      | nil => rfl
      | cons c rest =>
        rw [readTreeList, readTreeList]
        rw [ih.1, ih.2]

/-- On a tree all of whose reachable children lists are free of adjacent
Text siblings, the collapse pass changes nothing observable. -/
theorem collapse_noop (fuel : Nat) :
    (∀ (n : Nat) (t u : Arena) (l : List Nat), GetEq t u →
      preo fuel t n = some l →
      (∀ m ∈ l, noAdjText t (Arena.get t m).children) →
      ∃ t'', collapse_text fuel u n = some t'' ∧ GetEq t t'') ∧
    (∀ (ls : List Nat) (t u : Arena) (L : List Nat), GetEq t u →
      preoList fuel t ls = some L →
      (∀ m ∈ L, noAdjText t (Arena.get t m).children) →
      ∃ t'', collapse_list fuel u ls = some t'' ∧ GetEq t t'') := by
  induction fuel with
  | zero =>
    constructor
    · intro n t u l hg h; rw [preo_zero] at h; cases h
    · intro ls t u L hg h; simp [preoList] at h
  | succ fuel ih =>
    constructor
    · intro n t u l hg hp hnoadj
      rw [preo_succ] at hp
      cases hl2 : preoList fuel t (Arena.get t n).children with
      | none => rw [hl2] at hp; cases hp
      | some l2 =>
        rw [hl2] at hp
        cases hp
        have hgn : Arena.get u n = Arena.get t n := (hg n).symm
        have hnoadjU : noAdjText u (Arena.get u n).children := by
          rw [hgn]
          exact noAdjText_congr t u
            (fun m => congrArg NodeData.isText (hg m).symm) _
            (hnoadj n (List.mem_cons_self ..))
        have hmerge : collapse_merge u (Arena.get u n).children =
            (u, (Arena.get u n).children) := collapse_merge_noAdj u _ hnoadjU
        have hgu2 : GetEq u (Arena.set u n
            ⟨(Arena.get u n).isText, (Arena.get u n).text,
             (Arena.get u n).children⟩) := by
          intro i
          rw [Arena.get_set]
          by_cases hni : n = i
          · subst hni
            rw [if_pos rfl]
          · rw [if_neg hni]
        obtain ⟨t'', hrun'', hg''⟩ :=
          ih.2 (Arena.get t n).children t
            (Arena.set u n ⟨(Arena.get u n).isText, (Arena.get u n).text,
              (Arena.get u n).children⟩) l2
            (getEq_trans hg hgu2) hl2
            (fun m hm => hnoadj m (List.mem_cons_of_mem n hm))
        refine ⟨t'', ?_, hg''⟩
        rw [collapse_text_succ, hmerge]
        dsimp only
        rw [← hgn] at hrun''
        exact hrun''
    · intro ls t u L hg hp hnoadj
      cases ls with
      | nil =>
        exact ⟨u, collapse_list_succ_nil .., hg⟩
      | cons c rest =>
        rw [preoList_succ_cons] at hp
        cases hpa : preo fuel t c with
        | none => rw [hpa] at hp; cases hp
        | some a =>
          rw [hpa] at hp
          cases hpb : preoList fuel t rest with
          | none => rw [hpb] at hp; cases hp
          | some b =>
            rw [hpb] at hp
            cases hp
            obtain ⟨u1, hrun1, hg1⟩ := ih.1 c t u a hg hpa
              (fun m hm => hnoadj m (List.mem_append_left b hm))
            obtain ⟨u2, hrun2, hg2⟩ := ih.2 rest t u1 b hg1 hpb
              (fun m hm => hnoadj m (List.mem_append_right a hm))
            refine ⟨u2, ?_, hg2⟩
            rw [collapse_list_succ_cons, hrun1]
            exact hrun2

/-- Helper: a successful run of the default preprocess with the default
no-op `preprocess_text` is exactly a successful collapse of the input. -/
theorem preprocess_noop_collapse (fuel root : Nat) (s0 s1 : Arena)
    (vs cs : List Nat)
    (h : preprocess preprocess_text_default fuel root s0 = .ok s1 vs cs) :
    collapse_text fuel s0 root = some s1 := by
  unfold preprocess at h
  rcases (recursion_noop_state fuel).1 root s0 [] [] with h0 | ⟨vs', cs', h0⟩
  · rw [h0] at h; cases h
  · rw [h0] at h
    dsimp only at h
    cases hc : collapse_text fuel s0 root with
    | some s2 => rw [hc] at h; cases h; rfl
    | none => rw [hc] at h; cases h

/-- C4: with the default no-op `preprocess_text`, running the default
`ITextPreprocessor.preprocess` twice on a root yields a tree structurally
and textually identical to running it once: after the second run every node
reads exactly as after the first, and the tree readout at the root is
unchanged (stated for a well-formed input tree: duplicate-free pre-order
readout and Text nodes as leaves, per the spec's data model). -/
theorem c4_noop_preprocess_idempotent (fuel root : Nat) (s0 s1 s2 : Arena)
    (vs cs vs2 cs2 ns : List Nat)
    (h1 : preprocess preprocess_text_default fuel root s0 = .ok s1 vs cs)
    (h2 : preprocess preprocess_text_default fuel root s1 = .ok s2 vs2 cs2)
    (hns : preo fuel s0 root = some ns) (hnd : ns.Nodup)
    (htl : TextLeaves s0 ns) :
    (∀ i, Arena.get s2 i = Arena.get s1 i) ∧
    readTree fuel s2 root = readTree fuel s1 root := by
  have hcol1 : collapse_text fuel s0 root = some s1 :=
    preprocess_noop_collapse fuel root s0 s1 vs cs h1
  obtain ⟨t', hct, hframe, hIT, htext, hallch, htgt⟩ :=
    (collapse_spec s0 fuel).1 root s0 ns hns hnd htl
      (fun m hm => ⟨rfl, rfl⟩) (fun m hm hmn => rfl)
  have ht1 : t' = s1 := by
    rw [hct] at hcol1
    exact Option.some.inj hcol1
  rw [ht1] at hframe hIT htext hallch htgt
  obtain ⟨ns', hns', hsub'⟩ := (preo_collapsed s0 s1 hIT fuel).1 root ns hns hallch
  have hnoadj : ∀ m ∈ ns', noAdjText s1 (Arena.get s1 m).children := by
    intro m hm
    have hmns : m ∈ ns := hsub'.subset hm
    rw [hallch m hmns]
    exact noAdjText_congr s0 s1 hIT _ (mergeIds_noAdj s0 _)
  have hcol2 : collapse_text fuel s1 root = some s2 :=
    preprocess_noop_collapse fuel root s1 s2 vs2 cs2 h2
  obtain ⟨t'', hct'', hg''⟩ :=
    (collapse_noop fuel).1 root s1 s1 ns' (getEq_refl s1) hns' hnoadj
  have ht2 : t'' = s2 := by
    rw [hct''] at hcol2
    exact Option.some.inj hcol2
  rw [ht2] at hg''
  exact ⟨fun i => (hg'' i).symm,
    ((readTree_congr s1 s2 hg'' fuel).1 root).symm⟩

theorem c4_noop_preprocess_idempotent_witness :
    preprocess preprocess_text_default 10 0 exTree =
      .ok exTreeCollapsed [0, 1, 2, 3] [1, 2, 3] ∧
    preprocess preprocess_text_default 10 0 exTreeCollapsed =
      .ok exTreeCollapsed2 [0, 1] [1] ∧
    preo 10 exTree 0 = some [0, 1, 2, 3] ∧
    readTree 10 exTreeCollapsed2 0 = readTree 10 exTreeCollapsed 0 := by
  refine ⟨by decide, by decide, by decide, ?_⟩
  exact (c4_noop_preprocess_idempotent 10 0 exTree exTreeCollapsed
    exTreeCollapsed2 [0, 1, 2, 3] [1, 2, 3] [0, 1] [1] [0, 1, 2, 3]
    (by decide) (by decide) (by decide) (by decide)
    (by unfold TextLeaves; decide)).2

/-! ## The snapshot protects the traversal against sibling splicing -/

/-- Two node records with equal fields are equal. -/
theorem NodeData.ext3 (a b : NodeData) (h1 : a.isText = b.isText)
    (h2 : a.text = b.text) (h3 : a.children = b.children) : a = b := by
  cases a
  cases b
  cases h1
  cases h2
  cases h3
  rfl

/-- Main lemma for the snapshot semantics: running the traversal with any
sibling-splicing override (`InsertPt B pt`) over a subtree whose readout in
the reference arena `s` is `l` (all old ids, duplicate-free), starting from
any arena `t` in which the subtree entries are still the original ones and
in which every old node's old-id children form a sublist of the original
ones, succeeds and
  - visits exactly the original readout `l` (so never a fresh id `≥ B`),
  - invokes `preprocess_text` exactly on the original Text nodes of `l` in
    document order,
  - leaves every old node untouched whose children never contained a node
    of `l` (the frame), and
  - preserves the old-id children sublist invariant. -/
theorem recursion_insertpt (s : Arena) (B : Nat) (pt : Pt)
    (hpt : InsertPt B pt) (fuel : Nat) :
    (∀ (n : Nat) (t : Arena) (vs cs l : List Nat),
      preo fuel s n = some l → l.Nodup → (∀ m ∈ l, m < B) →
      (∀ m ∈ l, Arena.get t m = Arena.get s m) →
      (∀ m, m < B →
        ((Arena.get t m).children.filter (fun i => i < B)).Sublist
          ((Arena.get s m).children.filter (fun i => i < B))) →
      ∃ t', recursion pt fuel n t vs cs =
          .ok t' (vs ++ l) (cs ++ l.filter (fun m => (Arena.get s m).isText)) ∧
        (∀ m, m < B → m ∉ l → (∀ y ∈ l, y ∉ (Arena.get s m).children) →
          Arena.get t' m = Arena.get t m) ∧
        (∀ m, m < B →
          ((Arena.get t' m).children.filter (fun i => i < B)).Sublist
            ((Arena.get s m).children.filter (fun i => i < B)))) ∧
    (∀ (ls : List Nat) (t : Arena) (vs cs L : List Nat),
      preoList fuel s ls = some L → L.Nodup → (∀ m ∈ L, m < B) →
      (∀ m ∈ L, Arena.get t m = Arena.get s m) →
      (∀ m, m < B →
        ((Arena.get t m).children.filter (fun i => i < B)).Sublist
          ((Arena.get s m).children.filter (fun i => i < B))) →
      ∃ t', recursionList pt fuel ls t vs cs =
          .ok t' (vs ++ L) (cs ++ L.filter (fun m => (Arena.get s m).isText)) ∧
        (∀ m, m < B → m ∉ L → (∀ y ∈ L, y ∉ (Arena.get s m).children) →
          Arena.get t' m = Arena.get t m) ∧
        (∀ m, m < B →
          ((Arena.get t' m).children.filter (fun i => i < B)).Sublist
            ((Arena.get s m).children.filter (fun i => i < B)))) := by
  induction fuel with
  | zero =>
    constructor
    · intro n t vs cs l hp
      rw [preo_zero] at hp
      cases hp
    · intro ls t vs cs L hp
      simp [preoList] at hp
  | succ fuel ih =>
    constructor
    · -- node statement
      intro n t vs cs l hp hnd hB hI1 hI2
      rw [preo_succ] at hp
      cases hl2 : preoList fuel s (Arena.get s n).children with
      | none => rw [hl2] at hp; cases hp
      | some l2 =>
        rw [hl2] at hp
        cases hp
        have hnl2 : n ∉ l2 := (List.nodup_cons.mp hnd).1
        have hndl2 : l2.Nodup := (List.nodup_cons.mp hnd).2
        have hnmem : n ∈ n :: l2 := List.mem_cons_self ..
        have hchl2 : ∀ c ∈ (Arena.get s n).children, c ∈ l2 :=
          (preo_closure fuel).2 s _ l2 hl2 |>.1
        have hcl2 : ∀ m ∈ l2, ∀ c ∈ (Arena.get s m).children, c ∈ l2 :=
          (preo_closure fuel).2 s _ l2 hl2 |>.2
        have hgtn : Arena.get t n = Arena.get s n := hI1 n hnmem
        have hitn : (Arena.get t n).isText = (Arena.get s n).isText := by
          rw [hgtn]
        rw [recursion]
        by_cases htx : (Arena.get s n).isText = true
        · -- Text node: preprocess_text fires first, then the snapshot is read
          rw [if_pos (by rw [hitn]; exact htx)]
          obtain ⟨t1, hpt1, hedit⟩ := hpt t n (by rw [hitn]; exact htx)
          obtain ⟨hE1, hE2, hE3, hE4, hE5⟩ := hedit
          rw [hpt1]
          dsimp only
          have hsnap : (Arena.get t1 n).children = (Arena.get s n).children := by
            rw [hE5, hgtn]
          have hI1' : ∀ m ∈ l2, Arena.get t1 m = Arena.get s m := by
            intro m hm
            have hmB : m < B := hB m (List.mem_cons_of_mem n hm)
            have hmn : m ≠ n := fun h => hnl2 (h ▸ hm)
            have hgm : Arena.get t m = Arena.get s m :=
              hI1 m (List.mem_cons_of_mem n hm)
            have hch : (Arena.get t1 m).children = (Arena.get t m).children := by
              by_contra hne
              have hnin : n ∈ (Arena.get t m).children := hE4 m hmB hne
              rw [hgm] at hnin
              exact hnl2 (hcl2 m hm n hnin)
            refine NodeData.ext3 _ _ ?_ ?_ ?_
            · rw [hE1 m hmB, hgm]
            · rw [hE2 m hmB hmn, hgm]
            · rw [hch, hgm]
          have hI2' : ∀ m, m < B →
              ((Arena.get t1 m).children.filter (fun i => i < B)).Sublist
                ((Arena.get s m).children.filter (fun i => i < B)) :=
            fun m hmB => (hE3 m hmB).trans (hI2 m hmB)
          obtain ⟨t', hrun', hO2, hO3⟩ :=
            ih.2 (Arena.get s n).children t1 (vs ++ [n]) (cs ++ [n]) l2
              hl2 hndl2 (fun m hm => hB m (List.mem_cons_of_mem n hm)) hI1' hI2'
          rw [hsnap, hrun']
          refine ⟨t', ?_, ?_, ?_⟩
          · have hfil : List.filter (fun m => (Arena.get s m).isText) (n :: l2) =
                n :: List.filter (fun m => (Arena.get s m).isText) l2 := by
              simp [List.filter, htx]
            rw [hfil]
            simp
          · intro m hmB hml hych
            have hml2 : m ∉ l2 := fun h => hml (List.mem_cons_of_mem n h)
            have hmn : m ≠ n := fun h => hml (h ▸ hnmem)
            have hstep2 : Arena.get t' m = Arena.get t1 m :=
              hO2 m hmB hml2 (fun y hy => hych y (List.mem_cons_of_mem n hy))
            have hch : (Arena.get t1 m).children = (Arena.get t m).children := by
              by_contra hne
              have hnin : n ∈ (Arena.get t m).children := hE4 m hmB hne
              have hnB : n < B := hB n hnmem
              have hnin2 : n ∈ (Arena.get t m).children.filter (fun i => i < B) :=
                List.mem_filter.mpr ⟨hnin, by simpa using hnB⟩
              have hnin3 : n ∈ (Arena.get s m).children :=
                List.mem_filter.mp ((hI2 m hmB).subset hnin2) |>.1
              exact hych n hnmem hnin3
            rw [hstep2]
            refine NodeData.ext3 _ _ ?_ ?_ ?_
            · rw [hE1 m hmB]
            · rw [hE2 m hmB hmn]
            · rw [hch]
          · exact hO3
        · -- non-Text node: no call, straight to the snapshot
          rw [if_neg (by rw [hitn]; exact htx)]
          have hsnap : (Arena.get t n).children = (Arena.get s n).children := by
            rw [hgtn]
          obtain ⟨t', hrun', hO2, hO3⟩ :=
            ih.2 (Arena.get s n).children t (vs ++ [n]) cs l2
              hl2 hndl2 (fun m hm => hB m (List.mem_cons_of_mem n hm))
              (fun m hm => hI1 m (List.mem_cons_of_mem n hm)) hI2
          rw [hsnap, hrun']
          refine ⟨t', ?_, ?_, hO3⟩
          · have hfil : List.filter (fun m => (Arena.get s m).isText) (n :: l2) =
                List.filter (fun m => (Arena.get s m).isText) l2 := by
              simp [List.filter, htx]
            rw [hfil]
            simp
          · intro m hmB hml hych
            exact hO2 m hmB (fun h => hml (List.mem_cons_of_mem n h))
              (fun y hy => hych y (List.mem_cons_of_mem n hy))
    · -- list statement
      intro ls t vs cs L hp hnd hB hI1 hI2
      cases ls with
      | nil =>
        rw [preoList_succ_nil] at hp
        cases hp
        exact ⟨t, by rw [recursionList_succ_nil]; simp,
          fun m _ _ _ => rfl, hI2⟩
      | cons c rest =>
        rw [preoList_succ_cons] at hp
        cases hpa : preo fuel s c with
        | none => rw [hpa] at hp; cases hp
        | some a =>
          rw [hpa] at hp
          cases hpb : preoList fuel s rest with
          | none => rw [hpb] at hp; cases hp
          | some b =>
            rw [hpb] at hp
            cases hp
            obtain ⟨hnda, hndb, hdisj⟩ := List.nodup_append.mp hnd
            have hclb : ∀ m ∈ b, ∀ y ∈ (Arena.get s m).children, y ∈ b :=
              (preo_closure fuel).2 s rest b hpb |>.2
            obtain ⟨t1, hrun1, hO2a, hO3a⟩ :=
              ih.1 c t vs cs a hpa hnda
                (fun m hm => hB m (List.mem_append_left b hm))
                (fun m hm => hI1 m (List.mem_append_left b hm)) hI2
            obtain ⟨t2, hrun2, hO2b, hO3b⟩ :=
              ih.2 rest t1 (vs ++ a)
                (cs ++ a.filter (fun m => (Arena.get s m).isText)) b
                hpb hndb (fun m hm => hB m (List.mem_append_right a hm))
                (fun m hm => by
                  rw [hO2a m (hB m (List.mem_append_right a hm))
                    (fun h => hdisj h hm)
                    (fun y hy hych => hdisj hy (hclb m hm y hych))]
                  exact hI1 m (List.mem_append_right a hm))
                hO3a
            rw [recursionList_succ_cons, hrun1]
            dsimp only
            rw [hrun2]
            refine ⟨t2, by simp, ?_, hO3b⟩
            intro m hmB hml hych
            rw [hO2b m hmB (fun h => hml (List.mem_append_right a h))
              (fun y hy => hych y (List.mem_append_right a hy))]
            exact hO2a m hmB (fun h => hml (List.mem_append_left b h))
              (fun y hy => hych y (List.mem_append_left b hy))

/-- C1: for every tree and every sibling-splicing override of
`preprocess_text` (`InsertPt B pt`: on each Text node it succeeds after
inserting freshly created siblings with ids `≥ B` next to the node inside
its parents' children lists, possibly detaching the node itself or other
old siblings, and never touching the given node's own children), the
default traversal never invokes `preprocess_text` on the newly inserted
siblings during the same pass, while the children captured in each parent's
snapshot are each visited exactly once even if the override detached them
from the tree before they were reached: the visit log is exactly the
original pre-order readout `ns` (duplicate-free, all old ids, so no fresh
id `≥ B` is ever visited), and the call log is exactly the original Text
nodes of `ns` in document order. -/
theorem c1_fresh_siblings_not_visited (pt : Pt) (B fuel root : Nat)
    (s : Arena) (ns : List Nat)
    (hpt : InsertPt B pt)
    (hns : preo fuel s root = some ns) (hnd : ns.Nodup)
    (hB : ∀ m ∈ ns, m < B) :
    ∃ s', recursion pt fuel root s [] [] =
        .ok s' ns (ns.filter (fun m => (Arena.get s m).isText)) ∧
      (∀ y, B ≤ y → y ∉ ns) ∧
      (ns.filter (fun m => (Arena.get s m).isText)).Sublist ns := by
  obtain ⟨s', hrun, hO2, hO3⟩ :=
    (recursion_insertpt s B pt hpt fuel).1 root s [] [] ns hns hnd hB
      (fun m hm => rfl) (fun m hmB => List.Sublist.refl _)
  exact ⟨s', by simpa using hrun,
    fun y hy hmem => absurd (hB y hmem) (by omega),
    List.filter_sublist ..⟩

/-- The spliced children keep their old-id part as a sublist. -/
theorem spliceList_filter (l : List Nat) :
    ((spliceList l).filter (fun i => i < 10)).Sublist
      (l.filter (fun i => i < 10)) := by
  induction l with
  | nil => exact List.Sublist.refl _
  | cons c rest ih =>
    have hsp : spliceList (c :: rest) = splitChild c ++ spliceList rest := rfl
    rw [hsp, List.filter_append, List.filter_cons]
    by_cases h1 : c = 1
    · subst h1
      have h2 : splitChild 1 = [1, 20] := rfl
      rw [h2, if_pos (by decide)]
      have h3 : List.filter (fun i => i < 10) [1, 20] = [1] := by decide
      rw [h3]
      exact List.Sublist.cons₂ 1 ih
    · by_cases h2 : c = 2
      · subst h2
        have h3 : splitChild 2 = [] := rfl
        rw [h3, if_pos (by decide)]
        simp only [List.filter_nil, List.nil_append]
        exact ih.trans (List.sublist_cons_self 2 _)
      · have h3 : splitChild c = [c] := by simp [splitChild, h1, h2]
        rw [h3]
        by_cases hc : c < 10
        · rw [if_pos (by simpa using hc)]
          have h4 : List.filter (fun i => i < 10) [c] = [c] := by simp [hc]
          rw [h4]
          exact List.Sublist.cons₂ c ih
        · rw [if_neg (by simpa using hc)]
          have h4 : List.filter (fun i => i < 10) [c] = [] := by simp [hc]
          rw [h4]
          simpa using ih

/-- The example splitting override is a sibling-splicing override with
fresh ids above 10. -/
theorem ptSplit_insertpt : InsertPt 10 ptSplit := by
  intro t n htx
  unfold ptSplit
  by_cases h : n = 1 ∧ 1 ∈ (Arena.get t 0).children
  · rw [if_pos h]
    obtain ⟨hn1, hmem⟩ := h
    subst hn1
    refine ⟨_, rfl, ?_, ?_, ?_, ?_, ?_⟩
    · intro m hm
      rw [Arena.get_set, Arena.get_set]
      by_cases h0 : (0 : Nat) = m
      · subst h0
        rw [if_pos rfl]
      · rw [if_neg h0, if_neg (by omega : ¬(20 = m))]
    · intro m hm hmn
      rw [Arena.get_set, Arena.get_set]
      by_cases h0 : (0 : Nat) = m
      · subst h0
        rw [if_pos rfl]
      · rw [if_neg h0, if_neg (by omega : ¬(20 = m))]
    · intro m hm
      rw [Arena.get_set, Arena.get_set]
      by_cases h0 : (0 : Nat) = m
      · subst h0
        rw [if_pos rfl]
        exact spliceList_filter _
      · rw [if_neg h0, if_neg (by omega : ¬(20 = m))]
    · intro m hm hne
      by_cases h0 : (0 : Nat) = m
      · subst h0
        exact hmem
      · exfalso
        apply hne
        rw [Arena.get_set, Arena.get_set, if_neg h0,
          if_neg (by omega : ¬(20 = m))]
    · rw [Arena.get_set, Arena.get_set, if_neg (by decide : ¬((0 : Nat) = 1)),
        if_neg (by decide : ¬((20 : Nat) = 1))]
  · rw [if_neg h]
    exact ⟨t, rfl, fun m hm => rfl, fun m hm hmn => rfl,
      fun m hm => List.Sublist.refl _, fun m hm hne => absurd rfl hne, rfl⟩

theorem c1_fresh_siblings_not_visited_witness :
    preo 10 exTree 0 = some [0, 1, 2, 3] ∧
    (∃ s', recursion ptSplit 10 0 exTree [] [] =
        .ok s' [0, 1, 2, 3]
          (([0, 1, 2, 3] : List Nat).filter
            (fun m => (Arena.get exTree m).isText)) ∧
      (∀ y, 10 ≤ y → y ∉ ([0, 1, 2, 3] : List Nat)) ∧
      (([0, 1, 2, 3] : List Nat).filter
        (fun m => (Arena.get exTree m).isText)).Sublist [0, 1, 2, 3]) ∧
    RunResult.callsOf (recursion ptSplit 10 0 exTree [] []) = [1, 2, 3] ∧
    (Arena.get ((recursion ptSplit 10 0 exTree [] []).stateOf.getD []) 0).children
      = [1, 20, 3] := by
  refine ⟨by decide, ?_, by decide, by decide⟩
  exact c1_fresh_siblings_not_visited ptSplit 10 10 0 exTree [0, 1, 2, 3]
    ptSplit_insertpt (by decide) (by decide) (by decide)
